import Mathlib

/-!
Audio_recorder.cpp: voice-gated WAV recorder.

A shallow embedding of `src/Audio_recorder.cpp` (a Teensy audio sketch) and
proofs about it.

Conventions of the embedding.

* `float` values (`targetGain`, the peak, the noise profile, FFT magnitudes) are
  exact rationals `ℚ`: comparison, `max`, `min`, `*` and `/` are the real
  operations, rounding is not modelled.
* `unsigned int` / `unsigned long` are 32 bits wide: naturals reduced modulo
  `2^32 = 4294967296`.  `int` is 32 bits wide, two's complement: integers
  wrapped into `[-2^31, 2^31)`.
* The SD card file is a record of its bytes, its position and whether it is
  open; the audio library objects are the values the sketch reads from them,
  given as the input of one `loop()` iteration.
* `while (true);` never returns: `setup` and `loop` yield an `Outcome`, which
  is either `running` (the function returned) or `halted` (it hangs forever).
-/

namespace AudioRec

/-! ## Machine integers -/

/-- Conversion of an `int` value to `unsigned int` (32 bits, modulo `2^32`). -/
def toUInt32 (x : Int) : Nat := (x % 4294967296).toNat

/-- Wrap of an integer into the range of a 32-bit two's complement `int`. -/
def toInt32 (x : Int) : Int := (x + 2147483648) % 4294967296 - 2147483648

/-- Unsigned 32-bit subtraction `a - b` of two `unsigned long` values. -/
def subUInt32 (a b : Nat) : Nat := (a % 4294967296 + (4294967296 - b % 4294967296)) % 4294967296

/-! ## The SD card file -/

/-- Modelled from the spec: the storage collaborator (`File` of the SD library,
not part of the sketch), "byte-stream file abstraction supporting open, write,
seek, size, close".  A write overwrites the byte at the position, or appends
when the position is the end of the file, and advances the position. -/
structure File where
  bytes : List Nat
  pos : Nat
  isOpen : Bool
deriving DecidableEq

namespace File

/-- The value of `if (audioFile)`: the file is open. -/
def toBool (f : File) : Bool := f.isOpen

/-- Modelled from the spec: `file.size()`, the current total size. -/
def size (f : File) : Nat := if f.isOpen then f.bytes.length else 0

/-- Modelled from the spec: `file.seek(p)`; a position beyond the end is refused. -/
def seek (f : File) (p : Nat) : File :=
  if f.isOpen ∧ p ≤ f.bytes.length then { f with pos := p } else f

/-- Modelled from the spec: `file.write(b)` of one byte (`uint8_t`). -/
def write : File → Nat → File
  | ⟨bytes, pos, true⟩, b =>
    ⟨if pos < bytes.length then bytes.set pos (b % 256) else bytes ++ [b % 256], pos + 1, true⟩
  | ⟨bytes, pos, false⟩, _ => ⟨bytes, pos, false⟩

/-- Modelled from the spec: `file.write(buf, n)`, the first `n` bytes of `buf`
written one after the other. -/
def writeBuf (f : File) (buf : List Nat) (n : Nat) : File :=
  (buf.take n).foldl write f

/-- Modelled from the spec: `file.close()`. -/
def close (f : File) : File := { f with isOpen := false }

/-- Source lines 167-172, `writeLittleEndian(File &file, unsigned int value, int size)`. -/
def writeLittleEndian : File → Nat → Nat → File
  | file, _, 0 => file
  | file, value, size + 1 =>
    writeLittleEndian (file.write (value &&& 0xFF)) (value >>> 8) size

end File

/-- Modelled from the spec: `SD.open("recording.wav", FILE_WRITE)` on a card
where the file holds `existing` (empty when it is new): when `ok`, an open file
positioned at its end. -/
def sdOpen (existing : List Nat) (ok : Bool) : File :=
  { bytes := existing, pos := existing.length, isOpen := ok }

/-! ## Byte buffers -/

/-- The C library `memcpy(dst + off, src, n)` on a byte buffer. -/
def memcpy : List Nat → Nat → List Nat → Nat → List Nat
  | dst, _, _, 0 => dst
  | dst, _, [], _ + 1 => dst
  | dst, off, b :: src, n + 1 => memcpy (dst.set off b) (off + 1) src n

/-- Source lines 160-165, `writeLittleEndian(byte *buffer, unsigned int value, int size)`,
with `buffer = base + off`. -/
def writeLittleEndian : List Nat → Nat → Nat → Nat → List Nat
  | base, _, _, 0 => base
  | base, off, value, size + 1 =>
    writeLittleEndian (base.set off (value &&& 0xFF)) (off + 1) (value >>> 8) size

/-- The bytes of a C string literal. -/
def cstr (s : String) : List Nat := s.toList.map Char.toNat

/-- Little-endian value of a byte sequence (used to read header fields back). -/
def decodeLE : List Nat → Nat
  | [] => 0
  | b :: bs => b + 256 * decodeLE bs

/-- The `n`-byte little-endian field at offset `off` of a byte sequence. -/
def fieldAt (bytes : List Nat) (off n : Nat) : Nat :=
  decodeLE ((bytes.drop off).take n)

/-! ## WAV header -/

/-- Source line 42. -/
def sampleRate : Int := 44100
/-- Source line 43. -/
def bitsPerSample : Int := 16
/-- Source line 44. -/
def numChannels : Int := 1

/-- Source lines 133-147: the 44-byte buffer `header` built by `writeWAVHeader`
(the local array starts as `init`; every byte of it is overwritten). -/
def wavHeaderBuf (init : List Nat) : List Nat :=
  let dataSize : Int := 0
  let header := init
  let header := memcpy header 0 (cstr "RIFF") 4
  let header := writeLittleEndian header 4 (toUInt32 (36 + dataSize)) 4
  let header := memcpy header 8 (cstr "WAVE") 4
  let header := memcpy header 12 (cstr "fmt ") 4
  let header := writeLittleEndian header 16 (toUInt32 16) 4
  let header := writeLittleEndian header 20 (toUInt32 1) 2
  let header := writeLittleEndian header 22 (toUInt32 numChannels) 2
  let header := writeLittleEndian header 24 (toUInt32 sampleRate) 4
  let header := writeLittleEndian header 28
    (toUInt32 ((sampleRate * numChannels * bitsPerSample).tdiv 8)) 4
  let header := writeLittleEndian header 32
    (toUInt32 ((numChannels * bitsPerSample).tdiv 8)) 2
  let header := writeLittleEndian header 34 (toUInt32 bitsPerSample) 2
  let header := memcpy header 36 (cstr "data") 4
  let header := writeLittleEndian header 40 (toUInt32 dataSize) 4
  header

/-- Source lines 132-149, `writeWAVHeader()`.  The local array `header` is not
initialised in the source; it is taken zeroed here, and `wavHeaderBuf_any` shows
that its first contents do not matter. -/
def writeWAVHeader (audioFile : File) : File :=
  audioFile.writeBuf (wavHeaderBuf (List.replicate 44 0)) 44

/-- Source lines 151-158, `updateWAVHeader()`. -/
def updateWAVHeader (audioFile : File) : File :=
  let fileSize : Int := toInt32 (audioFile.size : Int)
  let dataSize : Int := toInt32 (fileSize - 44)
  let audioFile := audioFile.seek 4
  let audioFile := audioFile.writeLittleEndian (toUInt32 (toInt32 (fileSize - 8))) 4
  let audioFile := audioFile.seek 40
  let audioFile := audioFile.writeLittleEndian (toUInt32 dataSize) 4
  audioFile

/-- The 44 bytes of the canonical header for an empty data chunk. -/
def canonicalHeader : List Nat :=
  [82, 73, 70, 70, 36, 0, 0, 0, 87, 65, 86, 69, 102, 109, 116, 32,
   16, 0, 0, 0, 1, 0, 1, 0, 68, 172, 0, 0, 136, 88, 1, 0,
   2, 0, 16, 0, 100, 97, 116, 97, 0, 0, 0, 0]

/-! ## Program state -/

/-- Source line 29. -/
def noiseDecayRate : ℚ := 0.995

/-- Source line 36. -/
def recordingDuration : Nat := 30000

/-- One buffer of the record queue (`recordQueue.readBuffer()`): 128 samples of
16 bits, the 256 bytes that line 85 writes. -/
structure PCMFrame where
  bytes : List Nat
  size_eq : bytes.length = 256
  byte_lt : ∀ b ∈ bytes, b < 256

/-- The global variables of the sketch (lines 28-39) and what the sketch has told
the audio objects: the gain last passed to `amplifier.gain`, whether the record
queue is between `begin()` and `end()`, and how many buffers were freed. -/
structure State where
  noiseThreshold : ℚ
  targetGain : ℚ
  noiseProfile : Fin 512 → ℚ
  voiceActive : Bool
  startTime : Nat
  audioFile : File
  amplifierGain : ℚ
  queueActive : Bool
  freedBuffers : Nat

/-- What one `loop()` iteration reads from the audio objects and the clock:
the queued buffer when `recordQueue.available() > 0`, the peak when
`peakAnalyzer.available()`, the FFT bins `fft1024.read(i)` when
`fft1024.available()`, and `millis()` at line 115. -/
structure LoopInput where
  pcm : Option PCMFrame
  peak : Option ℚ
  fft : Option (Nat → ℚ)
  now : Nat

/-- Result of running `setup()` or `loop()`: the function returned, or it is
stuck in `while (true);` with the state it had when it entered that loop. -/
inductive Outcome where
  | running (s : State)
  | halted (s : State)

/-- The program state of an outcome. -/
def Outcome.state : Outcome → State
  | .running s => s
  | .halted s => s

/-- Whether the program is stuck in `while (true);`. -/
def Outcome.isHalted : Outcome → Bool
  | .running _ => false
  | .halted _ => true

/-- The globals as initialised at lines 28-39, before `setup()`. -/
def initState : State :=
  { noiseThreshold := 0.02
    targetGain := 1.0
    noiseProfile := fun _ => 0
    voiceActive := false
    startTime := 0
    audioFile := { bytes := [], pos := 0, isOpen := false }
    amplifierGain := 1.0
    queueActive := false
    freedBuffers := 0 }

/-! ## The functions of the sketch -/

/-- Source lines 121-130, `stopRecording()` (serial output omitted). -/
def stopRecording (s : State) : State :=
  let s := { s with queueActive := false }
  if s.audioFile.toBool then
    { s with audioFile := (updateWAVHeader s.audioFile).close }
  else s

/-- Source lines 46-78, `setup()`: `sdBegin` is the result of `SD.begin(10)`,
`existing` and `openOk` describe `SD.open`, `now` is `millis()` at line 77. -/
def setup (sdBegin : Bool) (existing : List Nat) (openOk : Bool) (now : Nat) : Outcome :=
  let s := initState
  let s := { s with amplifierGain := s.targetGain }
  if !sdBegin then .halted s
  else
    let s := { s with audioFile := sdOpen existing openOk }
    if !s.audioFile.toBool then .halted s
    else
      let s := { s with audioFile := writeWAVHeader s.audioFile }
      let s := { s with queueActive := true }
      .running { s with startTime := now % 4294967296 }

/-- Source lines 82-88: the frame-handling block of `loop()`. -/
def recordBlock (s : State) (pcm : Option PCMFrame) : State :=
  match pcm with
  | none => s
  | some data =>
    let s := if s.voiceActive then
        { s with audioFile := s.audioFile.writeBuf data.bytes 256 }
      else s
    { s with freedBuffers := s.freedBuffers + 1 }

/-- Source lines 91-101: the adaptive gain block of `loop()`. -/
def gainBlock (s : State) (peak : Option ℚ) : State :=
  match peak with
  | none => s
  | some currentPeak =>
    let s := if currentPeak > 0.05 then
        { s with targetGain := max 0.5 (1.0 / currentPeak), voiceActive := true }
      else
        { s with targetGain := min 1.0 (s.targetGain * 1.05), voiceActive := false }
    { s with amplifierGain := s.targetGain }

/-- Source line 108: the condition `magnitude > noiseProfile[i] * 1.5` of the
per-bin suppression hook. -/
def suppressCondition (noiseProfile : Fin 512 → ℚ) (i : Fin 512) (magnitude : ℚ) : Bool :=
  decide (magnitude > noiseProfile i * 1.5)

/-- Source lines 106-110: the body of the profiling loop for bin `i`; the branch
of line 108 is empty in the source. -/
def profileBin (noiseProfile : Fin 512 → ℚ) (i : Fin 512) (magnitude : ℚ) : Fin 512 → ℚ :=
  let noiseProfile :=
    Function.update noiseProfile i (max (noiseProfile i * noiseDecayRate) magnitude)
  if suppressCondition noiseProfile i magnitude then noiseProfile else noiseProfile

/-- Source line 105: the profile after the iterations `i = 0, ..., k - 1` of the
`for` loop (the loop stops at `i = 512`). -/
def profileLoop (read : Nat → ℚ) (noiseProfile : Fin 512 → ℚ) : Nat → (Fin 512 → ℚ)
  | 0 => noiseProfile
  | k + 1 =>
    if h : k < 512 then profileBin (profileLoop read noiseProfile k) ⟨k, h⟩ (read k)
    else profileLoop read noiseProfile k

/-- Source lines 104-112: the noise profiling block of `loop()`. -/
def fftBlock (s : State) (fft : Option (Nat → ℚ)) : State :=
  match fft with
  | none => s
  | some read => { s with noiseProfile := profileLoop read s.noiseProfile 512 }

/-- Source lines 80-119, `loop()`. -/
def loop (s : State) (i : LoopInput) : Outcome :=
  let s := recordBlock s i.pcm
  let s := gainBlock s i.peak
  let s := fftBlock s i.fft
  if subUInt32 i.now s.startTime ≥ recordingDuration then
    .halted (stopRecording s)
  else .running s

/-- The Arduino core's `main`: after `setup()`, `loop()` is called again and
again, once per input, unless a call never returns. -/
def run : Outcome → List LoopInput → Outcome
  | .halted s, _ => .halted s
  | .running s, [] => .running s
  | .running s, i :: rest => run (loop s i) rest

/-- A state in which `loop()` can be entered: `setup()` returned, and some
number of `loop()` calls returned. -/
def Reachable (s : State) : Prop :=
  ∃ (sdBegin : Bool) (existing : List Nat) (openOk : Bool) (now : Nat)
    (inputs : List LoopInput),
    run (setup sdBegin existing openOk now) inputs = .running s

/-- The gain block applied to a sequence of peak values, one update per peak. -/
def gainRun (s : State) (peaks : List ℚ) : State :=
  peaks.foldl (fun s p => gainBlock s (some p)) s

/-- Bytes `v mod 256`, `(v / 256) mod 256`, ... of a value, `n` of them. -/
def leBytes : Nat → Nat → List Nat
  | _, 0 => []
  | v, n + 1 => v % 256 :: leBytes (v / 256) n

/-- Payload chunks appended to the open file one `write(buf, n)` after the other. -/
def appendChunks (f : File) (chunks : List (List Nat)) : File :=
  chunks.foldl (fun f c => f.writeBuf c c.length) f

/-- The writer used end to end on a new file: `writeWAVHeader()`, then the
payload chunks, then `updateWAVHeader()`. -/
def roundTrip (chunks : List (List Nat)) : File :=
  updateWAVHeader (appendChunks (writeWAVHeader (sdOpen [] true)) chunks)

/-- The file while recording: open, positioned at its end, holding a whole header. -/
def File.Streaming (f : File) : Prop :=
  f.isOpen = true ∧ f.pos = f.bytes.length ∧ 44 ≤ f.bytes.length

/-- A frame of 256 zero bytes. -/
def zeroFrame : PCMFrame :=
  { bytes := List.replicate 256 0
    size_eq := List.length_replicate 256 0
    byte_lt := fun b hb => by rw [List.eq_of_mem_replicate hb]; exact Nat.zero_lt_succ 255 }

/-- The state in which `setup()` returns on a card with a new, empty file, at time 0. -/
def startState : State := (setup true [] true 0).state

/-- Source lines 126 and 128: the line that `stopRecording()` prints on the
serial port, for the state in which it is called. -/
def stopRecordingMessage (s : State) : String :=
  if s.audioFile.toBool then "Recording saved as WAV."
  else "No file to close. Recording failed."

/-! ## Lemmas: machine integers and little-endian bytes -/

theorem toUInt32_toInt32 (x : Int) : toUInt32 (toInt32 x) = toUInt32 x := by
  unfold toUInt32 toInt32
  congr 1
  omega

theorem toUInt32_toInt32_sub (n : Int) (k : Int) :
    toUInt32 (toInt32 (toInt32 n - k)) = toUInt32 (n - k) := by
  unfold toUInt32 toInt32
  congr 1
  omega

theorem toUInt32_of_nat (n k : Nat) (hk : k ≤ n) :
    toUInt32 ((n : Int) - (k : Int)) = (n - k) % 4294967296 := by
  unfold toUInt32
  omega

theorem leBytes_length (v n : Nat) : (leBytes v n).length = n := by
  induction n generalizing v with
  | zero => rfl
  | succ n ih => simp [leBytes, ih]

theorem decodeLE_leBytes (v n : Nat) : decodeLE (leBytes v n) = v % 256 ^ n := by
  induction n generalizing v with
  | zero => simp [leBytes, decodeLE, Nat.mod_one]
  | succ n ih =>
    simp only [leBytes, decodeLE, ih]
    rw [pow_succ, mul_comm (256 ^ n) 256, Nat.mod_mul]

theorem leBytes_lt (v n : Nat) : ∀ b ∈ leBytes v n, b < 256 := by
  induction n generalizing v with
  | zero => simp [leBytes]
  | succ n ih =>
    intro b hb
    simp only [leBytes, List.mem_cons] at hb
    rcases hb with rfl | hb
    · exact Nat.mod_lt _ (by norm_num)
    · exact ih _ b hb

/-! ## Lemmas: the file -/

theorem File.write_open (f : File) (b : Nat) (h : f.isOpen = true) :
    (f.write b).isOpen = true ∧ (f.write b).pos = f.pos + 1 := by
  obtain ⟨B, p, o⟩ := f
  subst h
  exact ⟨rfl, rfl⟩

theorem File.write_at_end (f : File) (b : Nat) (h : f.isOpen = true)
    (hp : f.pos = f.bytes.length) :
    f.write b = { bytes := f.bytes ++ [b % 256], pos := f.pos + 1, isOpen := true } := by
  obtain ⟨B, p, o⟩ := f
  subst h
  simp only at hp
  simp [File.write, hp]

theorem File.write_inside (f : File) (b : Nat) (h : f.isOpen = true)
    (hp : f.pos < f.bytes.length) :
    f.write b = { bytes := f.bytes.take f.pos ++ (b % 256) :: f.bytes.drop (f.pos + 1),
                  pos := f.pos + 1, isOpen := true } := by
  obtain ⟨B, p, o⟩ := f
  subst h
  simp only at hp
  simp [File.write, hp, List.set_eq_take_append_cons_drop]

theorem File.foldl_write_at_end (data : List Nat) (f : File) (h : f.isOpen = true)
    (hp : f.pos = f.bytes.length) :
    data.foldl File.write f =
      { bytes := f.bytes ++ data.map (· % 256), pos := f.pos + data.length, isOpen := true } := by
  induction data generalizing f with
  | nil => cases f; simp_all
  | cons b data ih =>
    rw [List.foldl_cons, File.write_at_end f b h hp, ih _ rfl (by simp [hp])]
    simp [Nat.add_assoc, Nat.add_comm 1]

theorem File.writeBuf_at_end (f : File) (buf : List Nat) (n : Nat) (h : f.isOpen = true)
    (hp : f.pos = f.bytes.length) :
    f.writeBuf buf n =
      { bytes := f.bytes ++ (buf.take n).map (· % 256), pos := f.pos + (buf.take n).length,
        isOpen := true } :=
  File.foldl_write_at_end _ f h hp

theorem File.writeBuf_closed (f : File) (buf : List Nat) (n : Nat) (h : f.isOpen = false) :
    f.writeBuf buf n = f := by
  unfold File.writeBuf
  induction buf.take n with
  | nil => rfl
  | cons b l ih =>
    have : f.write b = f := by
      obtain ⟨B, p, o⟩ := f
      subst h
      rfl
    rw [List.foldl_cons, this, ih]

theorem File.writeLittleEndian_inside (n : Nat) (f : File) (v : Nat) (h : f.isOpen = true)
    (hp : f.pos + n ≤ f.bytes.length) :
    f.writeLittleEndian v n =
      { bytes := f.bytes.take f.pos ++ leBytes v n ++ f.bytes.drop (f.pos + n),
        pos := f.pos + n, isOpen := true } := by
  induction n generalizing f v with
  | zero => cases f; simp_all [File.writeLittleEndian, leBytes]
  | succ n ih =>
    have hlt : f.pos < f.bytes.length := by omega
    have e1 : v &&& 0xFF = v % 256 := Nat.and_pow_two_sub_one_eq_mod v 8
    have e2 : v >>> 8 = v / 256 := Nat.shiftRight_eq_div_pow v 8
    have hlen : (List.take f.pos f.bytes).length = f.pos := by
      rw [List.length_take]; omega
    have hlen2 : (List.take f.pos f.bytes ++ v % 256 % 256 :: List.drop (f.pos + 1) f.bytes).length
        = f.bytes.length := by
      simp only [List.length_append, List.length_cons, List.length_drop, hlen]; omega
    rw [File.writeLittleEndian, e1, e2, File.write_inside f _ h hlt,
      ih _ _ rfl (by simp only [hlen2]; omega)]
    have t1 : List.take (f.pos + 1)
        (List.take f.pos f.bytes ++ v % 256 % 256 :: List.drop (f.pos + 1) f.bytes)
        = List.take f.pos f.bytes ++ [v % 256] := by
      rw [List.take_append_eq_append_take, hlen]
      simp [List.take_take]
    have t2 : List.drop (f.pos + 1 + n)
        (List.take f.pos f.bytes ++ v % 256 % 256 :: List.drop (f.pos + 1) f.bytes)
        = List.drop (f.pos + (n + 1)) f.bytes := by
      rw [List.drop_append_eq_append_drop, hlen]
      have : f.pos + 1 + n - f.pos = n + 1 := by omega
      rw [this, List.drop_succ_cons, List.drop_drop, List.drop_eq_nil_of_le (by rw [hlen]; omega)]
      simp [Nat.add_assoc, Nat.add_comm 1 n]
    simp only [t1, t2]
    simp only [leBytes, List.append_assoc, List.singleton_append, Nat.add_assoc,
      Nat.add_comm 1 n]

theorem File.seek_open (f : File) (p : Nat) (h : f.isOpen = true) (hp : p ≤ f.bytes.length) :
    f.seek p = { bytes := f.bytes, pos := p, isOpen := true } := by
  cases f
  simp_all [File.seek]

theorem File.close_bytes (f : File) : f.close.bytes = f.bytes := rfl

theorem File.seek_mk (B : List Nat) (p q : Nat) (hq : q ≤ B.length) :
    File.seek ⟨B, p, true⟩ q = ⟨B, q, true⟩ :=
  File.seek_open ⟨B, p, true⟩ q rfl hq

theorem File.writeLittleEndian_mk (B : List Nat) (p v n : Nat) (hp : p + n ≤ B.length) :
    File.writeLittleEndian ⟨B, p, true⟩ v n
      = ⟨B.take p ++ leBytes v n ++ B.drop (p + n), p + n, true⟩ :=
  File.writeLittleEndian_inside n ⟨B, p, true⟩ v rfl hp

/-- The file after `updateWAVHeader()`, for an open file that holds a whole header. -/
theorem updateWAVHeader_bytes (f : File) (h : f.isOpen = true) (hl : 44 ≤ f.bytes.length) :
    updateWAVHeader f =
      { bytes := f.bytes.take 4 ++ leBytes ((f.bytes.length - 8) % 4294967296) 4
          ++ (f.bytes.drop 8).take 32 ++ leBytes ((f.bytes.length - 44) % 4294967296) 4
          ++ f.bytes.drop 44,
        pos := 44, isOpen := true } := by
  have hsz : f.size = f.bytes.length := by simp [File.size, h]
  have v1 : toUInt32 (toInt32 (toInt32 (f.size : Int) - 8)) = (f.bytes.length - 8) % 4294967296 := by
    rw [toUInt32_toInt32_sub, hsz]
    exact toUInt32_of_nat _ 8 (by omega)
  have v2 : toUInt32 (toInt32 (toInt32 (f.size : Int) - 44)) = (f.bytes.length - 44) % 4294967296 := by
    rw [toUInt32_toInt32_sub, hsz]
    exact toUInt32_of_nat _ 44 (by omega)
  have l4 : (List.take 4 f.bytes).length = 4 := by rw [List.length_take]; omega
  obtain ⟨B, p, o⟩ := f
  simp only at h hl l4 v1 v2 ⊢
  subst h
  unfold updateWAVHeader
  simp only [v1, v2]
  have hlen : ∀ v, (B.take 4 ++ leBytes v 4 ++ B.drop (4 + 4)).length = B.length := by
    intro v
    simp only [List.length_append, leBytes_length, List.length_drop, l4]; omega
  rw [File.seek_mk B p 4 (by omega), File.writeLittleEndian_mk B 4 _ 4 (by omega),
    File.seek_mk _ _ 40 (by rw [hlen]; omega),
    File.writeLittleEndian_mk _ 40 _ 4 (by rw [hlen]; omega)]
  simp only [File.mk.injEq, and_true]
  have t1 : List.take 40 (List.take 4 B ++ leBytes ((B.length - 8) % 4294967296) 4
      ++ List.drop (4 + 4) B)
      = List.take 4 B ++ leBytes ((B.length - 8) % 4294967296) 4
        ++ (B.drop 8).take 32 := by
    rw [List.take_append_eq_append_take, List.take_of_length_le (by
      simp only [List.length_append, leBytes_length, l4]; omega)]
    simp only [List.length_append, leBytes_length, l4]
  have t2 : List.drop (40 + 4) (List.take 4 B ++ leBytes ((B.length - 8) % 4294967296) 4
      ++ List.drop (4 + 4) B) = B.drop 44 := by
    rw [List.drop_append_eq_append_drop, List.drop_eq_nil_of_le (by
      simp only [List.length_append, leBytes_length, l4]; omega)]
    simp only [List.length_append, leBytes_length, l4, List.nil_append, List.drop_drop]
  rw [t1, t2]

theorem fieldAt_4 (a b c : List Nat) (ha : a.length = 4) (hb : b.length = 4) :
    fieldAt (a ++ b ++ c) 4 4 = decodeLE b := by
  unfold fieldAt
  rw [List.append_assoc, List.drop_left' ha, List.take_left' hb]

theorem fieldAt_40 (a b : List Nat) (ha : a.length = 40) (hb : b.length = 4) (c : List Nat) :
    fieldAt (a ++ b ++ c) 40 4 = decodeLE b := by
  unfold fieldAt
  rw [List.append_assoc, List.drop_left' ha, List.take_left' hb]

/-- The two size fields after `updateWAVHeader()`: the sizes modulo `2^32`. -/
theorem updateWAVHeader_fields (f : File) (h : f.isOpen = true) (hl : 44 ≤ f.bytes.length) :
    fieldAt (updateWAVHeader f).bytes 4 4 = (f.bytes.length - 8) % 4294967296
    ∧ fieldAt (updateWAVHeader f).bytes 40 4 = (f.bytes.length - 44) % 4294967296
    ∧ (updateWAVHeader f).bytes.length = f.bytes.length := by
  have l4 : (List.take 4 f.bytes).length = 4 := by rw [List.length_take]; omega
  have l32 : (List.take 32 (f.bytes.drop 8)).length = 32 := by
    rw [List.length_take, List.length_drop]; omega
  rw [updateWAVHeader_bytes f h hl]
  refine ⟨?_, ?_, ?_⟩
  · simp only [List.append_assoc]
    rw [← List.append_assoc, fieldAt_4 _ _ _ l4 (leBytes_length _ _), decodeLE_leBytes]
    norm_num
  · rw [fieldAt_40 _ _ (by
      simp only [List.length_append, leBytes_length, l4, l32]) (leBytes_length _ _),
      decodeLE_leBytes]
    norm_num
  · simp only [List.length_append, leBytes_length, l4, l32, List.length_drop]
    omega

/-- Whatever the 44 bytes of the local array `header` are at first, the buffer
that `writeWAVHeader` builds is the canonical header: every byte is overwritten. -/
theorem wavHeaderBuf_any (init : List Nat) (h : init.length = 44) :
    wavHeaderBuf init = canonicalHeader := by
  iterate 44 (rcases init with _ | ⟨_, init⟩; (· exact absurd h (by
    simp only [List.length_cons, List.length_nil]; omega)))
  have hnil : init = [] := by
    cases init with
    | nil => rfl
    | cons a l => exact absurd h (by simp only [List.length_cons]; omega)
  subst hnil
  have e1 : cstr "RIFF" = [82, 73, 70, 70] := by decide
  have e2 : cstr "WAVE" = [87, 65, 86, 69] := by decide
  have e3 : cstr "fmt " = [102, 109, 116, 32] := by decide
  have e4 : cstr "data" = [100, 97, 116, 97] := by decide
  have c1 : toUInt32 (36 + 0) = 36 := by decide
  have c2 : toUInt32 16 = 16 := by decide
  have c3 : toUInt32 1 = 1 := by decide
  have c4 : toUInt32 numChannels = 1 := by decide
  have c5 : toUInt32 sampleRate = 44100 := by decide
  have c6 : toUInt32 ((sampleRate * numChannels * bitsPerSample).tdiv 8) = 88200 := by decide
  have c7 : toUInt32 ((numChannels * bitsPerSample).tdiv 8) = 2 := by decide
  have c8 : toUInt32 bitsPerSample = 16 := by decide
  have c9 : toUInt32 0 = 0 := by decide
  unfold wavHeaderBuf
  simp only [e1, e2, e3, e4, c1, c2, c3, c4, c5, c6, c7, c8, c9]
  simp only [memcpy, writeLittleEndian]
  norm_num only [List.set_cons_succ, List.set_cons_zero]
  rfl

theorem wavHeaderBuf_eq : wavHeaderBuf (List.replicate 44 0) = canonicalHeader :=
  wavHeaderBuf_any _ (List.length_replicate 44 0)

theorem writeWAVHeader_at_end (f : File) (h : f.isOpen = true) (hp : f.pos = f.bytes.length) :
    writeWAVHeader f = ⟨f.bytes ++ canonicalHeader, f.pos + 44, true⟩ := by
  unfold writeWAVHeader
  rw [File.writeBuf_at_end f _ _ h hp, wavHeaderBuf_eq]
  have e1 : (List.take 44 canonicalHeader).map (· % 256) = canonicalHeader := by decide
  have e2 : (List.take 44 canonicalHeader).length = 44 := by decide
  rw [e1, e2]

theorem writeWAVHeader_new : writeWAVHeader (sdOpen [] true) = ⟨canonicalHeader, 44, true⟩ := by
  rw [writeWAVHeader_at_end _ rfl rfl]
  rfl

theorem appendChunks_at_end (chunks : List (List Nat)) (f : File) (h : f.isOpen = true)
    (hp : f.pos = f.bytes.length) :
    appendChunks f chunks =
      ⟨f.bytes ++ chunks.flatten.map (· % 256), f.pos + chunks.flatten.length, true⟩ := by
  induction chunks generalizing f with
  | nil => cases f; simp_all [appendChunks]
  | cons c chunks ih =>
    have hc : c.take c.length = c := List.take_length c
    unfold appendChunks at ih ⊢
    rw [List.foldl_cons, File.writeBuf_at_end f c _ h hp, hc,
      ih _ rfl (by simp only [List.length_append, List.length_map, hp])]
    simp [Nat.add_assoc]

/-- The size fields that `roundTrip` leaves, for every payload: the sizes modulo `2^32`. -/
theorem roundTrip_fields (chunks : List (List Nat)) :
    fieldAt (roundTrip chunks).bytes 4 4 = (36 + chunks.flatten.length) % 4294967296
    ∧ fieldAt (roundTrip chunks).bytes 40 4 = chunks.flatten.length % 4294967296
    ∧ (roundTrip chunks).bytes.length = 44 + chunks.flatten.length := by
  have hb : appendChunks (writeWAVHeader (sdOpen [] true)) chunks
      = ⟨canonicalHeader ++ chunks.flatten.map (· % 256), 44 + chunks.flatten.length, true⟩ := by
    rw [writeWAVHeader_new, appendChunks_at_end _ _ rfl rfl]
  have hl : (canonicalHeader ++ chunks.flatten.map (· % 256)).length = 44 + chunks.flatten.length := by
    rw [List.length_append, List.length_map]
    rfl
  unfold roundTrip
  rw [hb]
  obtain ⟨h1, h2, h3⟩ := updateWAVHeader_fields
    ⟨canonicalHeader ++ chunks.flatten.map (· % 256), 44 + chunks.flatten.length, true⟩ rfl
    (by simp only [hl]; omega)
  simp only [hl] at h1 h2 h3
  refine ⟨?_, ?_, h3⟩
  · rw [h1]; omega
  · rw [h2]; omega

/-! ## Theorems about the WAV writer -/

/-- C3: `writeWAVHeader()` appends exactly the 44 bytes of the canonical PCM WAV
header to the open file (on a new file the file is those 44 bytes): "RIFF" at 0,
chunk size 36 at 4, "WAVE" at 8, "fmt " at 12, fmt size 16 at 16, format tag 1 at
20, channel count 1 at 22, sample rate 44100 at 24, byte rate
sampleRate * numChannels * bitsPerSample / 8 = 88200 at 28, block align
numChannels * bitsPerSample / 8 = 2 at 32, bits per sample 16 at 34, "data" at 36
and data size 0 at 40, each integer field being the little-endian bytes of its
value. -/
theorem writeWAVHeader_layout :
    (∀ existing : List Nat,
      (writeWAVHeader (sdOpen existing true)).bytes = existing ++ canonicalHeader
      ∧ (writeWAVHeader (sdOpen existing true)).pos = existing.length + 44)
    ∧ (writeWAVHeader (sdOpen [] true)).bytes.length = 44
    ∧ (writeWAVHeader (sdOpen [] true)).bytes =
        cstr "RIFF" ++ leBytes 36 4 ++ cstr "WAVE" ++ cstr "fmt " ++ leBytes 16 4
          ++ leBytes 1 2 ++ leBytes numChannels.toNat 2 ++ leBytes sampleRate.toNat 4
          ++ leBytes ((sampleRate * numChannels * bitsPerSample).tdiv 8).toNat 4
          ++ leBytes ((numChannels * bitsPerSample).tdiv 8).toNat 2
          ++ leBytes bitsPerSample.toNat 2 ++ cstr "data" ++ leBytes 0 4
    ∧ (canonicalHeader.take 4 = cstr "RIFF"
      ∧ fieldAt canonicalHeader 4 4 = 36
      ∧ (canonicalHeader.drop 8).take 4 = cstr "WAVE"
      ∧ (canonicalHeader.drop 12).take 4 = cstr "fmt "
      ∧ fieldAt canonicalHeader 16 4 = 16
      ∧ fieldAt canonicalHeader 20 2 = 1
      ∧ fieldAt canonicalHeader 22 2 = 1
      ∧ fieldAt canonicalHeader 24 4 = 44100
      ∧ fieldAt canonicalHeader 28 4 = 88200
      ∧ fieldAt canonicalHeader 32 2 = 2
      ∧ fieldAt canonicalHeader 34 2 = 16
      ∧ (canonicalHeader.drop 36).take 4 = cstr "data"
      ∧ fieldAt canonicalHeader 40 4 = 0)
    ∧ ((sampleRate * numChannels * bitsPerSample).tdiv 8 = 88200
      ∧ (numChannels * bitsPerSample).tdiv 8 = 2) := by
  refine ⟨fun existing => ?_, ?_, ?_, by decide, by decide⟩
  · rw [writeWAVHeader_at_end _ rfl rfl]
    exact ⟨rfl, rfl⟩
  · rw [writeWAVHeader_new]; rfl
  · rw [writeWAVHeader_new]; decide

/-- C2 (amended): for every payload of `K` bytes with `44 + K < 2^32`, appended in
any chunks after `writeWAVHeader()` on a new file, `updateWAVHeader()` leaves
`44 + K - 8` in the 4 bytes at offset 4 and `K` in the 4 bytes at offset 40
(little-endian), and the file is `44 + K` bytes long. -/
theorem roundTrip_sizes (chunks : List (List Nat))
    (h : 44 + chunks.flatten.length < 4294967296) :
    fieldAt (roundTrip chunks).bytes 4 4 = 44 + chunks.flatten.length - 8
    ∧ fieldAt (roundTrip chunks).bytes 40 4 = chunks.flatten.length
    ∧ (roundTrip chunks).bytes.length = 44 + chunks.flatten.length := by
  obtain ⟨h1, h2, h3⟩ := roundTrip_fields chunks
  refine ⟨?_, ?_, h3⟩
  · rw [h1]; omega
  · rw [h2]; omega

/-- Witness of `roundTrip_sizes`: a payload of three bytes in two chunks. -/
theorem roundTrip_sizes_witness :
    44 + [[1, 2], [3]].flatten.length < 4294967296
    ∧ fieldAt (roundTrip [[1, 2], [3]]).bytes 4 4 = 39
    ∧ fieldAt (roundTrip [[1, 2], [3]]).bytes 40 4 = 3
    ∧ (roundTrip [[1, 2], [3]]).bytes.length = 47 :=
  ⟨by decide, roundTrip_sizes [[1, 2], [3]] (by decide)⟩

/-- C2 as stated fails for `K = 2^32 - 36`: the file is `2^32 + 8` bytes long and
the 4 bytes at offset 4 hold 0, not `44 + K - 8 = 2^32`. -/
theorem roundTrip_sizes_overflow :
    [List.replicate 4294967260 0].flatten.length = 4294967260
    ∧ fieldAt (roundTrip [List.replicate 4294967260 0]).bytes 4 4 = 0
    ∧ fieldAt (roundTrip [List.replicate 4294967260 0]).bytes 4 4
        ≠ 44 + [List.replicate 4294967260 0].flatten.length - 8 := by
  have hl : [List.replicate 4294967260 0].flatten.length = 4294967260 := by
    simp only [List.flatten_cons, List.flatten_nil, List.append_nil, List.length_replicate]
  have h1 := (roundTrip_fields [List.replicate 4294967260 0]).1
  rw [hl] at h1
  refine ⟨hl, ?_, ?_⟩
  · rw [h1]
  · rw [h1, hl]; omega

/-! ## Lemmas: the blocks of `loop()` -/

theorem gainBlock_voiced (s : State) (p : ℚ) (h : 0.05 < p) :
    gainBlock s (some p) =
      { s with targetGain := max 0.5 (1.0 / p), voiceActive := true,
               amplifierGain := max 0.5 (1.0 / p) } := by
  simp [gainBlock, h]

theorem gainBlock_unvoiced (s : State) (p : ℚ) (h : p ≤ 0.05) :
    gainBlock s (some p) =
      { s with targetGain := min 1.0 (s.targetGain * 1.05), voiceActive := false,
               amplifierGain := min 1.0 (s.targetGain * 1.05) } := by
  simp [gainBlock, not_lt.mpr h]

theorem gainBlock_floor (s : State) (p : ℚ) (h : 0.5 ≤ s.targetGain) :
    0.5 ≤ (gainBlock s (some p)).targetGain := by
  by_cases hp : 0.05 < p
  · rw [gainBlock_voiced s p hp]
    exact le_max_left _ _
  · rw [gainBlock_unvoiced s p (not_lt.mp hp)]
    refine le_min (by norm_num) ?_
    show (0.5 : ℚ) ≤ s.targetGain * 1.05
    norm_num at h ⊢
    linarith

theorem gainRun_floor (peaks : List ℚ) (s : State) (h : 0.5 ≤ s.targetGain) :
    0.5 ≤ (gainRun s peaks).targetGain := by
  induction peaks generalizing s with
  | nil => exact h
  | cons p peaks ih => exact ih _ (gainBlock_floor s p h)

theorem gainRun_append (s : State) (peaks : List ℚ) (p : ℚ) :
    gainRun s (peaks ++ [p]) = gainBlock (gainRun s peaks) (some p) := by
  simp [gainRun, List.foldl_append]

theorem gainBlock_frame (s : State) (peak : Option ℚ) :
    (gainBlock s peak).audioFile = s.audioFile
    ∧ (gainBlock s peak).startTime = s.startTime
    ∧ (gainBlock s peak).noiseProfile = s.noiseProfile
    ∧ (gainBlock s peak).freedBuffers = s.freedBuffers
    ∧ (gainBlock s peak).queueActive = s.queueActive
    ∧ (gainBlock s peak).noiseThreshold = s.noiseThreshold := by
  cases peak with
  | none => simp [gainBlock]
  | some p =>
    by_cases hp : 0.05 < p
    · simp [gainBlock_voiced s p hp]
    · simp [gainBlock_unvoiced s p (not_lt.mp hp)]

theorem recordBlock_frame (s : State) (pcm : Option PCMFrame) :
    (recordBlock s pcm).targetGain = s.targetGain
    ∧ (recordBlock s pcm).voiceActive = s.voiceActive
    ∧ (recordBlock s pcm).startTime = s.startTime
    ∧ (recordBlock s pcm).noiseProfile = s.noiseProfile
    ∧ (recordBlock s pcm).amplifierGain = s.amplifierGain
    ∧ (recordBlock s pcm).queueActive = s.queueActive
    ∧ (recordBlock s pcm).noiseThreshold = s.noiseThreshold := by
  cases pcm with
  | none => simp [recordBlock]
  | some data => cases hv : s.voiceActive <;> simp [recordBlock, hv]

theorem fftBlock_frame (s : State) (fft : Option (Nat → ℚ)) :
    (fftBlock s fft).targetGain = s.targetGain
    ∧ (fftBlock s fft).voiceActive = s.voiceActive
    ∧ (fftBlock s fft).startTime = s.startTime
    ∧ (fftBlock s fft).audioFile = s.audioFile
    ∧ (fftBlock s fft).amplifierGain = s.amplifierGain
    ∧ (fftBlock s fft).queueActive = s.queueActive
    ∧ (fftBlock s fft).freedBuffers = s.freedBuffers
    ∧ (fftBlock s fft).noiseThreshold = s.noiseThreshold := by
  cases fft <;> simp [fftBlock]

theorem stopRecording_frame (s : State) :
    (stopRecording s).targetGain = s.targetGain
    ∧ (stopRecording s).voiceActive = s.voiceActive
    ∧ (stopRecording s).startTime = s.startTime
    ∧ (stopRecording s).noiseProfile = s.noiseProfile
    ∧ (stopRecording s).amplifierGain = s.amplifierGain
    ∧ (stopRecording s).freedBuffers = s.freedBuffers
    ∧ (stopRecording s).noiseThreshold = s.noiseThreshold := by
  cases ho : s.audioFile.isOpen <;> simp [stopRecording, File.toBool, ho]

/-- The state in which a `loop()` iteration ends: the three blocks, then
`stopRecording()` when the deadline has passed. -/
theorem loop_state (s : State) (i : LoopInput) :
    (loop s i).state =
      if recordingDuration ≤ subUInt32 i.now s.startTime then
        stopRecording (fftBlock (gainBlock (recordBlock s i.pcm) i.peak) i.fft)
      else fftBlock (gainBlock (recordBlock s i.pcm) i.peak) i.fft := by
  have hst : (fftBlock (gainBlock (recordBlock s i.pcm) i.peak) i.fft).startTime = s.startTime := by
    rw [(fftBlock_frame _ _).2.2.1, (gainBlock_frame _ _).2.1, (recordBlock_frame _ _).2.2.1]
  unfold loop
  simp only [hst, ge_iff_le]
  split <;> rfl

theorem loop_isHalted (s : State) (i : LoopInput) :
    (loop s i).isHalted = decide (recordingDuration ≤ subUInt32 i.now s.startTime) := by
  have hst : (fftBlock (gainBlock (recordBlock s i.pcm) i.peak) i.fft).startTime = s.startTime := by
    rw [(fftBlock_frame _ _).2.2.1, (gainBlock_frame _ _).2.1, (recordBlock_frame _ _).2.2.1]
  unfold loop
  simp only [hst, ge_iff_le]
  split <;> simp_all [Outcome.isHalted]

theorem loop_voiceActive (s : State) (i : LoopInput) :
    (loop s i).state.voiceActive = (gainBlock (recordBlock s i.pcm) i.peak).voiceActive := by
  rw [loop_state]
  split
  · rw [(stopRecording_frame _).2.1, (fftBlock_frame _ _).2.1]
  · rw [(fftBlock_frame _ _).2.1]

theorem loop_gain (s : State) (i : LoopInput) :
    (loop s i).state.targetGain = (gainBlock (recordBlock s i.pcm) i.peak).targetGain
    ∧ (loop s i).state.amplifierGain
        = (gainBlock (recordBlock s i.pcm) i.peak).amplifierGain := by
  rw [loop_state]
  split
  · rw [(stopRecording_frame _).1, (fftBlock_frame _ _).1, (stopRecording_frame _).2.2.2.2.1,
      (fftBlock_frame _ _).2.2.2.2.1]
    exact ⟨rfl, rfl⟩
  · rw [(fftBlock_frame _ _).1, (fftBlock_frame _ _).2.2.2.2.1]
    exact ⟨rfl, rfl⟩

theorem map_mod_of_lt (l : List Nat) (h : ∀ b ∈ l, b < 256) : l.map (· % 256) = l := by
  induction l with
  | nil => rfl
  | cons a l ih =>
    rw [List.map_cons, ih (fun b hb => h b (List.mem_cons_of_mem _ hb)),
      Nat.mod_eq_of_lt (h a (List.mem_cons_self _ _))]

theorem recordBlock_voiced (s : State) (data : PCMFrame) (hs : s.audioFile.Streaming)
    (hv : s.voiceActive = true) :
    recordBlock s (some data) =
      { s with audioFile := ⟨s.audioFile.bytes ++ data.bytes, s.audioFile.pos + 256, true⟩,
               freedBuffers := s.freedBuffers + 1 } := by
  have ht : data.bytes.take 256 = data.bytes := by
    rw [← data.size_eq]; exact List.take_length _
  simp only [recordBlock, hv, if_true]
  rw [File.writeBuf_at_end _ _ _ hs.1 hs.2.1, ht, map_mod_of_lt _ data.byte_lt, data.size_eq]

theorem recordBlock_unvoiced (s : State) (data : PCMFrame) (hv : s.voiceActive = false) :
    recordBlock s (some data) = { s with freedBuffers := s.freedBuffers + 1 } := by
  simp [recordBlock, hv]

theorem recordBlock_streaming (s : State) (pcm : Option PCMFrame) (hs : s.audioFile.Streaming) :
    (recordBlock s pcm).audioFile.Streaming := by
  cases pcm with
  | none => exact hs
  | some data =>
    cases hv : s.voiceActive
    · rw [recordBlock_unvoiced s data hv]; exact hs
    · rw [recordBlock_voiced s data hs hv]
      refine ⟨rfl, ?_, ?_⟩
      · simp only [List.length_append, data.size_eq, hs.2.1]
      · simp only [List.length_append]
        have := hs.2.2
        omega

theorem setup_ok (existing : List Nat) (now : Nat) :
    setup true existing true now =
      .running { initState with
        audioFile := writeWAVHeader (sdOpen existing true)
        queueActive := true
        startTime := now % 4294967296 } := rfl

theorem setup_no_card (existing : List Nat) (openOk : Bool) (now : Nat) :
    setup false existing openOk now = .halted initState := rfl

theorem setup_no_file (existing : List Nat) (now : Nat) :
    setup true existing false now =
      .halted { initState with audioFile := sdOpen existing false } := rfl

theorem setup_streaming (sdBegin : Bool) (existing : List Nat) (openOk : Bool) (now : Nat)
    (s : State) (h : setup sdBegin existing openOk now = .running s) :
    s.audioFile.Streaming := by
  cases sdBegin
  · rw [setup_no_card] at h; cases h
  · cases openOk
    · rw [setup_no_file] at h; cases h
    · rw [setup_ok] at h
      injection h with h
      subst h
      show (writeWAVHeader (sdOpen existing true)).Streaming
      rw [writeWAVHeader_at_end _ rfl rfl]
      refine ⟨rfl, ?_, ?_⟩
      · show existing.length + 44 = (existing ++ canonicalHeader).length
        rw [List.length_append]; rfl
      · show 44 ≤ (existing ++ canonicalHeader).length
        rw [List.length_append]
        exact Nat.le_add_left _ _

theorem loop_streaming (s s' : State) (i : LoopInput) (hs : s.audioFile.Streaming)
    (h : loop s i = .running s') : s'.audioFile.Streaming := by
  have hst := loop_state s i
  have hh := loop_isHalted s i
  rw [h] at hst hh
  simp only [Outcome.isHalted, Outcome.state] at hst hh
  have hd : ¬ recordingDuration ≤ subUInt32 i.now s.startTime := by
    intro hc
    simp [hc] at hh
  rw [if_neg hd] at hst
  rw [hst, (fftBlock_frame _ _).2.2.2.1, (gainBlock_frame _ _).1]
  exact recordBlock_streaming s i.pcm hs

theorem run_halted (o : Outcome) (inputs : List LoopInput) (h : o.isHalted = true) :
    run o inputs = o := by
  cases o with
  | running s => simp [Outcome.isHalted] at h
  | halted s => cases inputs <;> rfl

theorem run_streaming (inputs : List LoopInput) (o : Outcome) (s' : State)
    (ho : ∀ s, o = .running s → s.audioFile.Streaming)
    (h : run o inputs = .running s') : s'.audioFile.Streaming := by
  induction inputs generalizing o with
  | nil =>
    cases o with
    | running s => exact ho s' (by simpa [run] using h)
    | halted s => simp [run] at h
  | cons i rest ih =>
    cases o with
    | running s =>
      rw [run] at h
      exact ih (loop s i) (fun t ht => loop_streaming s t i (ho s rfl) ht) h
    | halted s => simp [run] at h

theorem reachable_streaming (s : State) (h : Reachable s) : s.audioFile.Streaming := by
  obtain ⟨sdBegin, existing, openOk, now, inputs, hr⟩ := h
  exact run_streaming inputs _ s (fun t ht => setup_streaming _ _ _ _ t ht) hr

theorem profileBin_apply (np : Fin 512 → ℚ) (i j : Fin 512) (m : ℚ) :
    profileBin np i m j = if j = i then max (np i * noiseDecayRate) m else np j := by
  unfold profileBin
  simp only [ite_self, Function.update_apply]

theorem profileLoop_apply (read : Nat → ℚ) (np : Fin 512 → ℚ) (k : Nat) (j : Fin 512) :
    profileLoop read np k j =
      if j.val < k then max (np j * noiseDecayRate) (read j.val) else np j := by
  induction k with
  | zero => simp [profileLoop]
  | succ k ih =>
    unfold profileLoop
    by_cases hk : k < 512
    · rw [dif_pos hk, profileBin_apply]
      by_cases hj : j = ⟨k, hk⟩
      · subst hj
        have hnp : profileLoop read np k ⟨k, hk⟩ = np ⟨k, hk⟩ := by
          rw [ih]; simp
        simp [hnp]
      · have hne : j.val ≠ k := fun h => hj (Fin.ext h)
        rw [if_neg hj, ih]
        by_cases hlt : j.val < k
        · rw [if_pos hlt, if_pos (by omega)]
        · rw [if_neg hlt, if_neg (by omega)]
    · rw [dif_neg hk, ih]
      have hj := j.isLt
      rw [if_pos (by omega), if_pos (by omega)]

theorem fftBlock_apply (s : State) (read : Nat → ℚ) (j : Fin 512) :
    (fftBlock s (some read)).noiseProfile j
      = max (s.noiseProfile j * noiseDecayRate) (read j.val) := by
  show profileLoop read s.noiseProfile 512 j = _
  rw [profileLoop_apply, if_pos j.isLt]

theorem loop_noiseProfile (s : State) (i : LoopInput) :
    (loop s i).state.noiseProfile = (fftBlock s i.fft).noiseProfile := by
  have h : (fftBlock (gainBlock (recordBlock s i.pcm) i.peak) i.fft).noiseProfile
      = (fftBlock s i.fft).noiseProfile := by
    have e : (gainBlock (recordBlock s i.pcm) i.peak).noiseProfile = s.noiseProfile := by
      rw [(gainBlock_frame _ _).2.2.1, (recordBlock_frame _ _).2.2.2.1]
    cases i.fft with
    | none => exact e
    | some read => simp only [fftBlock, e]
  rw [loop_state]
  split
  · rw [(stopRecording_frame _).2.2.2.1, h]
  · exact h

theorem fftBlock_nonneg (s : State) (fft : Option (Nat → ℚ)) (h : ∀ j, 0 ≤ s.noiseProfile j)
    (j : Fin 512) : 0 ≤ (fftBlock s fft).noiseProfile j := by
  cases fft with
  | none => exact h j
  | some read =>
    rw [fftBlock_apply]
    refine le_trans ?_ (le_max_left _ _)
    exact mul_nonneg (h j) (by norm_num [noiseDecayRate])

theorem run_noiseProfile_nonneg (inputs : List LoopInput) (o : Outcome)
    (h : ∀ j, 0 ≤ o.state.noiseProfile j) (j : Fin 512) :
    0 ≤ (run o inputs).state.noiseProfile j := by
  induction inputs generalizing o with
  | nil => cases o <;> exact h j
  | cons i rest ih =>
    cases o with
    | halted s => exact h j
    | running s =>
      rw [run]
      refine ih (loop s i) (fun k => ?_)
      rw [loop_noiseProfile]
      exact fftBlock_nonneg s i.fft h k

theorem setup_noiseProfile (sdBegin : Bool) (existing : List Nat) (openOk : Bool) (now : Nat) :
    (setup sdBegin existing openOk now).state.noiseProfile = fun _ => 0 := by
  cases sdBegin
  · rfl
  · cases openOk <;> rfl

theorem stopRecording_open (s : State) (h : s.audioFile.isOpen = true) :
    stopRecording s =
      { s with queueActive := false, audioFile := (updateWAVHeader s.audioFile).close } := by
  simp [stopRecording, File.toBool, h]

theorem stopRecording_closed (s : State) (h : s.audioFile.isOpen = false) :
    stopRecording s = { s with queueActive := false } := by
  simp [stopRecording, File.toBool, h]

theorem loop_audioFile (s : State) (i : LoopInput) :
    (loop s i).state.audioFile =
      if recordingDuration ≤ subUInt32 i.now s.startTime then
        (stopRecording (recordBlock s i.pcm)).audioFile
      else (recordBlock s i.pcm).audioFile := by
  have e : (fftBlock (gainBlock (recordBlock s i.pcm) i.peak) i.fft).audioFile
      = (recordBlock s i.pcm).audioFile := by
    rw [(fftBlock_frame _ _).2.2.2.1, (gainBlock_frame _ _).1]
  rw [loop_state]
  split
  · cases ho : (recordBlock s i.pcm).audioFile.isOpen
    · rw [stopRecording_closed _ (by rw [e]; exact ho), stopRecording_closed _ ho]
      exact e
    · rw [stopRecording_open _ (by rw [e]; exact ho), stopRecording_open _ ho]
      simp only [e]
  · exact e

/-- C1 as stated fails: from `targetGain = 1.0`, one update with the voiced peak
0.1 sets the gain to 10, above the ceiling 1.0. -/
theorem gain_exceeds_ceiling :
    (gainRun { initState with targetGain := 1.0 } [0.1]).targetGain = 10
    ∧ ¬ (gainRun { initState with targetGain := 1.0 } [0.1]).targetGain ≤ 1.0 := by
  have h : (gainRun { initState with targetGain := 1.0 } [0.1]).targetGain = 10 := by
    show (gainBlock _ (some 0.1)).targetGain = 10
    rw [gainBlock_voiced _ _ (by norm_num)]
    norm_num
  exact ⟨h, by rw [h]; norm_num⟩

/-- C1 (amended): starting from `targetGain = 1.0`, after every update of any
sequence of peak values the gain is at least the floor 0.5; after an update with
an unvoiced peak (at most 0.05) it is also at most the ceiling 1.0. -/
theorem gain_floor_and_unvoiced_ceiling (s : State) (peaks : List ℚ) (p : ℚ) :
    0.5 ≤ (gainRun { s with targetGain := 1.0 } (peaks ++ [p])).targetGain
    ∧ (p ≤ 0.05 → (gainRun { s with targetGain := 1.0 } (peaks ++ [p])).targetGain ≤ 1.0) := by
  refine ⟨gainRun_floor _ _ (by norm_num), fun hp => ?_⟩
  rw [gainRun_append, gainBlock_unvoiced _ _ hp]
  exact min_le_left _ _

/-- Witness of `gain_floor_and_unvoiced_ceiling`: a voiced peak 0.1 followed by
the unvoiced peak 0.01. -/
theorem gain_floor_and_unvoiced_ceiling_witness :
    (0.01 : ℚ) ≤ 0.05
    ∧ 0.5 ≤ (gainRun { initState with targetGain := 1.0 } ([0.1] ++ [0.01])).targetGain
    ∧ (gainRun { initState with targetGain := 1.0 } ([0.1] ++ [0.01])).targetGain ≤ 1.0 :=
  ⟨by norm_num, (gain_floor_and_unvoiced_ceiling initState [0.1] 0.01).1,
    (gain_floor_and_unvoiced_ceiling initState [0.1] 0.01).2 (by norm_num)⟩

/-- C4: for every peak value `p` the gain block of `loop()` sets `voiceActive` to
`false` when `p ≤ 0.05` and to `true` when `p > 0.05`, whatever the previous
`voiceActive` and gain were; the same holds at the end of the whole `loop()`
iteration that read `p`. -/
theorem voiceActive_decision (s : State) (p : ℚ) (i : LoopInput) :
    (gainBlock s (some p)).voiceActive = decide (0.05 < p)
    ∧ (loop s { i with peak := some p }).state.voiceActive = decide (0.05 < p) := by
  have h2 : ∀ t : State, (gainBlock t (some p)).voiceActive = decide (0.05 < p) := by
    intro t
    by_cases hp : 0.05 < p
    · simp [gainBlock_voiced t p hp, hp]
    · simp [gainBlock_unvoiced t p (not_lt.mp hp), hp]
  exact ⟨h2 s, by rw [loop_voiceActive]; exact h2 _⟩

/-- C5: for every peak `p` and previous gain `g = s.targetGain`, the gain block of
`loop()` sets `targetGain` to `max(0.5, 1.0 / p)` when `p > 0.05` and to
`min(1.0, g * 1.05)` when `p ≤ 0.05`, and passes that new gain to
`amplifier.gain`; at the end of the `loop()` iteration that read `p` the
amplifier holds that gain. -/
theorem gain_update_rule (s : State) (p : ℚ) (i : LoopInput) :
    (gainBlock s (some p)).targetGain
        = (if 0.05 < p then max 0.5 (1.0 / p) else min 1.0 (s.targetGain * 1.05))
    ∧ (gainBlock s (some p)).amplifierGain = (gainBlock s (some p)).targetGain
    ∧ (loop s { i with peak := some p }).state.amplifierGain
        = (if 0.05 < p then max 0.5 (1.0 / p) else min 1.0 (s.targetGain * 1.05)) := by
  have h : ∀ t : State, (gainBlock t (some p)).targetGain
        = (if 0.05 < p then max 0.5 (1.0 / p) else min 1.0 (t.targetGain * 1.05))
      ∧ (gainBlock t (some p)).amplifierGain = (gainBlock t (some p)).targetGain := by
    intro t
    by_cases hp : 0.05 < p
    · simp [gainBlock_voiced t p hp, hp]
    · simp [gainBlock_unvoiced t p (not_lt.mp hp), hp]
  refine ⟨(h s).1, (h s).2, ?_⟩
  rw [(loop_gain _ _).2]
  show (gainBlock (recordBlock s i.pcm) (some p)).amplifierGain = _
  rw [(h _).2, (h _).1, (recordBlock_frame _ _).1]

/-! ## Theorems about the noise profile -/

/-- C8: for every spectral frame and every bin `i` in 0..511, after the profiling
block of `loop()` `noiseProfile[i]` is `max(old noiseProfile[i] * 0.995, frame[i])`,
so it is at least `frame[i]`; the block changes no other program variable. -/
theorem noiseProfile_update_rule (s : State) (read : Nat → ℚ) (i : Fin 512) :
    (fftBlock s (some read)).noiseProfile i = max (s.noiseProfile i * 0.995) (read i.val)
    ∧ read i.val ≤ (fftBlock s (some read)).noiseProfile i
    ∧ fftBlock s (some read)
        = { s with noiseProfile := (fftBlock s (some read)).noiseProfile } := by
  have h := fftBlock_apply s read i
  refine ⟨h, ?_, rfl⟩
  rw [h]
  exact le_max_right _ _

/-- C9: starting from the all-zero profile of the sketch, after `setup()` and any
sequence of `loop()` iterations every `noiseProfile[i]` is at least 0; and a
`loop()` iteration in which no spectral frame is available leaves every
`noiseProfile[i]` no larger than before (it leaves it as it was). -/
theorem noiseProfile_nonneg_and_steady (sdBegin : Bool) (existing : List Nat) (openOk : Bool)
    (now : Nat) (inputs : List LoopInput) (s : State) (inp : LoopInput) (i : Fin 512) :
    initState.noiseProfile i = 0
    ∧ 0 ≤ (run (setup sdBegin existing openOk now) inputs).state.noiseProfile i
    ∧ (loop s { inp with fft := none }).state.noiseProfile i ≤ s.noiseProfile i
    ∧ (loop s { inp with fft := none }).state.noiseProfile i = s.noiseProfile i := by
  refine ⟨rfl, ?_, ?_, ?_⟩
  · refine run_noiseProfile_nonneg inputs _ (fun j => ?_) i
    rw [setup_noiseProfile]
  · rw [loop_noiseProfile]; exact le_refl _
  · rw [loop_noiseProfile]; rfl

/-! ## Theorems about the session -/

theorem reachable_startState : Reachable startState :=
  ⟨true, [], true, 0, [], rfl⟩

/-- C6: in every state in which `loop()` runs, for every available PCM frame the
frame-handling block appends the full 256-byte frame to the file when
`voiceActive` is true and leaves the file as it is when `voiceActive` is false
(so the frame is appended iff `voiceActive`); in both cases the buffer is freed. -/
theorem frame_handling (s : State) (h : Reachable s) (data : PCMFrame) :
    (s.voiceActive = true →
      (recordBlock s (some data)).audioFile.bytes = s.audioFile.bytes ++ data.bytes
      ∧ (recordBlock s (some data)).audioFile.bytes.length = s.audioFile.bytes.length + 256)
    ∧ (s.voiceActive = false → (recordBlock s (some data)).audioFile = s.audioFile)
    ∧ ((recordBlock s (some data)).audioFile.bytes = s.audioFile.bytes ++ data.bytes
        ↔ s.voiceActive = true)
    ∧ (recordBlock s (some data)).freedBuffers = s.freedBuffers + 1 := by
  have hs := reachable_streaming s h
  have hne : s.audioFile.bytes ≠ s.audioFile.bytes ++ data.bytes := by
    intro hc
    have hl := congrArg List.length hc
    rw [List.length_append, data.size_eq] at hl
    omega
  cases hv : s.voiceActive
  · rw [recordBlock_unvoiced s data hv]
    exact ⟨fun hc => (by cases hc), fun _ => rfl,
      ⟨fun hc => absurd hc hne, fun hc => (by cases hc)⟩, rfl⟩
  · rw [recordBlock_voiced s data hs hv]
    refine ⟨fun _ => ⟨rfl, ?_⟩, fun hc => (by cases hc), ⟨fun _ => rfl, fun _ => rfl⟩, rfl⟩
    show (s.audioFile.bytes ++ data.bytes).length = _
    rw [List.length_append, data.size_eq]

/-- Witness of `frame_handling`: the state right after `setup()`, where
`voiceActive` is false, and a frame of zeros. -/
theorem frame_handling_witness :
    Reachable startState ∧ startState.voiceActive = false
    ∧ (recordBlock startState (some zeroFrame)).audioFile = startState.audioFile
    ∧ (recordBlock startState (some zeroFrame)).freedBuffers = startState.freedBuffers + 1 :=
  ⟨reachable_startState, rfl,
    (frame_handling startState reachable_startState zeroFrame).2.1 rfl,
    (frame_handling startState reachable_startState zeroFrame).2.2.2⟩

theorem subUInt32_eq (a b : Nat) :
    subUInt32 a b = (((a : Int) - (b : Int)) % 4294967296).toNat := by
  unfold subUInt32
  omega

/-- C10: for a state in which `loop()` runs, the iteration ends in
`while (true);` (Recording to Stopped) exactly when `now - startTime >= 30000` in
unsigned 32-bit arithmetic, that is modulo `2^32`, so also across a wrap of the
millisecond counter; on that transition the record queue is ended, the header is
finalized by `updateWAVHeader()` (its size fields then hold the sizes of the
file) and the file is closed; and once halted, whatever data arrives later the
program state, the file included, never changes again. -/
theorem session_deadline (s : State) (h : Reachable s) (i : LoopInput)
    (more : List LoopInput) :
    ((loop s i).isHalted = true ↔ 30000 ≤ subUInt32 i.now s.startTime)
    ∧ ((loop s i).isHalted = false ↔ subUInt32 i.now s.startTime < 30000)
    ∧ subUInt32 i.now s.startTime
        = (((i.now : Int) - (s.startTime : Int)) % 4294967296).toNat
    ∧ subUInt32 20000 4294957296 = 30000
    ∧ (30000 ≤ subUInt32 i.now s.startTime →
        (loop s i).state.audioFile = (updateWAVHeader (recordBlock s i.pcm).audioFile).close
        ∧ (loop s i).state.audioFile.isOpen = false
        ∧ (loop s i).state.queueActive = false
        ∧ fieldAt (loop s i).state.audioFile.bytes 4 4
            = ((loop s i).state.audioFile.bytes.length - 8) % 4294967296
        ∧ fieldAt (loop s i).state.audioFile.bytes 40 4
            = ((loop s i).state.audioFile.bytes.length - 44) % 4294967296
        ∧ run (loop s i) more = loop s i) := by
  have hh := loop_isHalted s i
  have hrd : recordingDuration = 30000 := rfl
  rw [hrd] at hh
  refine ⟨?_, ?_, subUInt32_eq _ _, by decide, fun hd => ?_⟩
  · rw [hh]; simp
  · rw [hh]; simp
  · have hs := recordBlock_streaming s i.pcm (reachable_streaming s h)
    have hf : (loop s i).state.audioFile
        = (updateWAVHeader (recordBlock s i.pcm).audioFile).close := by
      rw [loop_audioFile, hrd, if_pos hd, stopRecording_open _ hs.1]
    have hq : (loop s i).state.queueActive = false := by
      rw [loop_state, hrd, if_pos hd]
      cases ho : (fftBlock (gainBlock (recordBlock s i.pcm) i.peak) i.fft).audioFile.isOpen
      · rw [stopRecording_closed _ ho]
      · rw [stopRecording_open _ ho]
    obtain ⟨f4, f40, fl⟩ := updateWAVHeader_fields _ hs.1 hs.2.2
    refine ⟨hf, by rw [hf]; rfl, hq, ?_, ?_, run_halted _ _ (by rw [hh]; simpa using hd)⟩
    · rw [hf, File.close_bytes, f4, fl]
    · rw [hf, File.close_bytes, f40, fl]

/-- Witness of `session_deadline`: the state right after `setup()` at time 0 and
an iteration at time 30000. -/
theorem session_deadline_witness :
    Reachable startState
    ∧ 30000 ≤ subUInt32 30000 startState.startTime
    ∧ (loop startState ⟨none, none, none, 30000⟩).isHalted = true
    ∧ (loop startState ⟨none, none, none, 30000⟩).state.audioFile.isOpen = false :=
  ⟨reachable_startState, by decide,
    (session_deadline startState reachable_startState ⟨none, none, none, 30000⟩ []).1.2
      (by decide),
    ((session_deadline startState reachable_startState ⟨none, none, none, 30000⟩ []).2.2.2.2
      (by decide)).2.1⟩

/-! ## Lemmas: bounds of the gain -/

theorem gainRun_cons (s : State) (p : ℚ) (peaks : List ℚ) :
    gainRun s (p :: peaks) = gainRun (gainBlock s (some p)) peaks := rfl

theorem gainBlock_unvoiced_gain (s : State) (p : ℚ) (h : p ≤ 0.05) :
    (gainBlock s (some p)).targetGain = min 1 (s.targetGain * 1.05) := by
  rw [gainBlock_unvoiced s p h]
  norm_num

/-- After unvoiced updates only, the gain is at least `min(1, g * 1.05^k)`. -/
theorem gainRun_unvoiced_lower (peaks : List ℚ) (s : State) (hg : 0 ≤ s.targetGain)
    (h : ∀ p ∈ peaks, p ≤ 0.05) :
    min 1 (s.targetGain * 1.05 ^ peaks.length) ≤ (gainRun s peaks).targetGain := by
  induction peaks generalizing s with
  | nil => simp [gainRun]
  | cons p peaks ih =>
    have hp : p ≤ 0.05 := h p (List.mem_cons_self _ _)
    have hstep := gainBlock_unvoiced_gain s p hp
    have hg1 : 0 ≤ (gainBlock s (some p)).targetGain := by
      rw [hstep]
      exact le_min (by norm_num) (mul_nonneg hg (by norm_num))
    have ih1 := ih (gainBlock s (some p)) hg1 (fun q hq => h q (List.mem_cons_of_mem _ hq))
    rw [gainRun_cons]
    refine le_trans ?_ ih1
    rw [hstep, List.length_cons, pow_succ]
    have hpow : (1 : ℚ) ≤ 1.05 ^ peaks.length := one_le_pow₀ (by norm_num)
    by_cases hc : s.targetGain * 1.05 ≤ 1
    · rw [min_eq_right hc]
      apply le_of_eq
      ring_nf
    · have h1 : min 1 (s.targetGain * 1.05) = 1 := min_eq_left (le_of_lt (not_le.mp hc))
      rw [h1, one_mul, min_eq_left hpow]
      exact min_le_left _ _

theorem gainRun_unvoiced_le_one (peaks : List ℚ) (s : State) (hne : peaks ≠ [])
    (h : ∀ p ∈ peaks, p ≤ 0.05) : (gainRun s peaks).targetGain ≤ 1 := by
  obtain ⟨init, p, rfl⟩ : ∃ init p, peaks = init ++ [p] :=
    ⟨peaks.dropLast, peaks.getLast hne, (List.dropLast_append_getLast hne).symm⟩
  rw [gainRun_append, gainBlock_unvoiced_gain _ _ (h p (by simp))]
  exact min_le_left _ _

theorem gainRun_unvoiced_settled (peaks : List ℚ) (s : State) (hg : 0.5 ≤ s.targetGain)
    (h : ∀ p ∈ peaks, p ≤ 0.05) (hlen : 15 ≤ peaks.length) :
    (gainRun s peaks).targetGain = 1 := by
  have hne : peaks ≠ [] := by
    intro hc
    rw [hc] at hlen
    simp at hlen
  refine le_antisymm (gainRun_unvoiced_le_one peaks s hne h) ?_
  have hlow := gainRun_unvoiced_lower peaks s (le_trans (by norm_num) hg) h
  refine le_trans (le_min (le_refl 1) ?_) hlow
  have hpow : (1.05 : ℚ) ^ 15 ≤ 1.05 ^ peaks.length :=
    pow_le_pow_right₀ (by norm_num) hlen
  have h15 : (2 : ℚ) ≤ 1.05 ^ 15 := by norm_num
  have h2 : (2 : ℚ) ≤ 1.05 ^ peaks.length := le_trans h15 hpow
  have hg2 : (1 / 2 : ℚ) ≤ s.targetGain := by
    norm_num at hg ⊢
    exact hg
  nlinarith

/-! ## Theorems about the reachable gain -/

/-- C16: from any gain `g ≥ 0.5`, during a run of consecutive unvoiced updates
(peaks at most 0.05) the gain never exceeds 1.0 after an update, does not
decrease from one update to the next when `g ≤ 1.0`, drops to exactly 1.0 in one
update when `g > 1.0`, and after 15 or more consecutive unvoiced updates it is
exactly 1.0 (so it has reached 1.0 within 15 updates and stays there). -/
theorem silence_recovery (s : State) (peaks : List ℚ) (p : ℚ) (hg : 0.5 ≤ s.targetGain)
    (h : ∀ q ∈ peaks, q ≤ 0.05) (hp : p ≤ 0.05) :
    (gainRun s (peaks ++ [p])).targetGain ≤ 1.0
    ∧ (s.targetGain ≤ 1.0 →
        (gainRun s peaks).targetGain ≤ (gainRun s (peaks ++ [p])).targetGain)
    ∧ (1.0 < s.targetGain → (gainBlock s (some p)).targetGain = 1.0)
    ∧ (15 ≤ peaks.length → (gainRun s peaks).targetGain = 1.0)
    ∧ (15 ≤ peaks.length → (gainRun s (peaks ++ [p])).targetGain = 1.0) := by
  have hall : ∀ q ∈ peaks ++ [p], q ≤ 0.05 := by
    intro q hq
    rcases List.mem_append.mp hq with hq | hq
    · exact h q hq
    · rw [List.mem_singleton.mp hq]; exact hp
  have hone : (1.0 : ℚ) = 1 := by norm_num
  have hfloor := gainRun_floor peaks s hg
  refine ⟨?_, fun hs => ?_, fun hs => ?_, fun hl => ?_, fun hl => ?_⟩
  · rw [hone]
    exact gainRun_unvoiced_le_one _ s (by simp) hall
  · have hle : (gainRun s peaks).targetGain ≤ 1 := by
      by_cases hne : peaks = []
      · rw [hne]; rw [hone] at hs; exact hs
      · exact gainRun_unvoiced_le_one peaks s hne h
    rw [gainRun_append, gainBlock_unvoiced_gain _ _ hp]
    refine le_min hle ?_
    norm_num at hfloor ⊢
    linarith
  · rw [gainBlock_unvoiced_gain _ _ hp, hone]
    refine min_eq_left ?_
    norm_num at hs ⊢
    linarith
  · rw [hone]; exact gainRun_unvoiced_settled peaks s hg h hl
  · rw [hone]
    exact gainRun_unvoiced_settled _ s hg hall (by
      rw [List.length_append, List.length_singleton]; omega)

/-- Witness of `silence_recovery`: from the gain 0.5, fifteen updates with the
unvoiced peak 0.01 and one more. -/
theorem silence_recovery_witness :
    (0.5 : ℚ) ≤ ({ initState with targetGain := 0.5 } : State).targetGain
    ∧ (∀ q ∈ List.replicate 15 (0.01 : ℚ), q ≤ 0.05)
    ∧ (0.01 : ℚ) ≤ 0.05
    ∧ (gainRun { initState with targetGain := 0.5 } (List.replicate 15 0.01)).targetGain = 1.0
    ∧ (gainRun { initState with targetGain := 0.5 }
        (List.replicate 15 0.01 ++ [0.01])).targetGain ≤ 1.0 :=
  have hg : (0.5 : ℚ) ≤ ({ initState with targetGain := 0.5 } : State).targetGain := le_refl _
  have h : ∀ q ∈ List.replicate 15 (0.01 : ℚ), q ≤ 0.05 := by
    intro q hq
    rw [List.eq_of_mem_replicate hq]
    norm_num
  have hp : (0.01 : ℚ) ≤ 0.05 := by norm_num
  ⟨hg, h, hp,
    (silence_recovery _ (List.replicate 15 0.01) 0.01 hg h hp).2.2.2.1
      (by rw [List.length_replicate]),
    (silence_recovery _ (List.replicate 15 0.01) 0.01 hg h hp).1⟩

/-! ## Theorems about the suppression hook -/

theorem profileLoop_nonneg (read : Nat → ℚ) (np : Fin 512 → ℚ) (h : ∀ j, 0 ≤ np j)
    (k : Nat) (j : Fin 512) : 0 ≤ profileLoop read np k j := by
  rw [profileLoop_apply]
  split
  · exact le_trans (mul_nonneg (h j) (by norm_num [noiseDecayRate])) (le_max_left _ _)
  · exact h j

theorem suppressCondition_false (np : Fin 512 → ℚ) (i : Fin 512) (m : ℚ) (h : 0 ≤ np i) :
    suppressCondition (Function.update np i (max (np i * noiseDecayRate) m)) i m = false := by
  unfold suppressCondition
  rw [Function.update_same, decide_eq_false_iff_not, not_lt]
  have h1 : m ≤ max (np i * noiseDecayRate) m := le_max_right _ _
  have h2 : 0 ≤ max (np i * noiseDecayRate) m :=
    le_trans (mul_nonneg h (by norm_num [noiseDecayRate])) (le_max_left _ _)
  norm_num
  linarith

/-- C17: for every non-negative noise profile, every bin `i` and every magnitude,
the condition `magnitude > noiseProfile[i] * 1.5` of line 108, evaluated right
after `noiseProfile[i] = max(noiseProfile[i] * 0.995, magnitude)`, is false; in
particular it is false at every bin of every profiling loop of a program run
(whose profiles are non-negative), so the branch is never entered. -/
theorem suppression_hook_unreachable (np : Fin 512 → ℚ) (i : Fin 512) (magnitude : ℚ)
    (h : ∀ j, 0 ≤ np j)
    (sdBegin : Bool) (existing : List Nat) (openOk : Bool) (now : Nat)
    (inputs : List LoopInput) (read : Nat → ℚ) :
    profileBin np i magnitude
        = (if suppressCondition (Function.update np i (max (np i * 0.995) magnitude)) i magnitude
            then Function.update np i (max (np i * 0.995) magnitude)
            else Function.update np i (max (np i * 0.995) magnitude))
    ∧ suppressCondition (Function.update np i (max (np i * 0.995) magnitude)) i magnitude = false
    ∧ ¬ (magnitude > max (np i * 0.995) magnitude * 1.5)
    ∧ suppressCondition
        (Function.update
          (profileLoop read (run (setup sdBegin existing openOk now) inputs).state.noiseProfile
            i.val)
          i
          (max (profileLoop read
              (run (setup sdBegin existing openOk now) inputs).state.noiseProfile i.val i
            * 0.995) (read i.val)))
        i (read i.val) = false := by
  have h1 := suppressCondition_false np i magnitude (h i)
  refine ⟨rfl, h1, ?_, ?_⟩
  · have h2 := h1
    unfold suppressCondition at h2
    rw [Function.update_same, decide_eq_false_iff_not] at h2
    exact h2
  · refine suppressCondition_false _ i (read i.val) (profileLoop_nonneg read _ (fun j => ?_) _ _)
    exact run_noiseProfile_nonneg inputs _ (fun k => by rw [setup_noiseProfile]) j

/-- Witness of `suppression_hook_unreachable`: the all-zero profile and the
magnitude 1 at bin 0. -/
theorem suppression_hook_unreachable_witness :
    (∀ j : Fin 512, (0 : ℚ) ≤ initState.noiseProfile j)
    ∧ suppressCondition
        (Function.update initState.noiseProfile 0 (max (initState.noiseProfile 0 * 0.995) 1))
        0 1 = false :=
  ⟨fun _ => le_refl _,
    (suppression_hook_unreachable initState.noiseProfile 0 1 (fun _ => le_refl _)
      true [] true 0 [] (fun _ => 0)).2.1⟩

/-! ## Lemmas and theorem about the little-endian writers -/

theorem leBytes_get (n v i : Nat) :
    (leBytes v n)[i]? = if i < n then some (v / 256 ^ i % 256) else none := by
  induction n generalizing v i with
  | zero => simp [leBytes]
  | succ n ih =>
    cases i with
    | zero => simp [leBytes]
    | succ i =>
      simp only [leBytes, List.getElem?_cons_succ, ih, Nat.add_lt_add_iff_right]
      rw [Nat.div_div_eq_div_mul, pow_succ, mul_comm]

theorem take_succ_splice (l : List Nat) (p b : Nat) (hp : p ≤ l.length) :
    (l.take p ++ b :: l.drop (p + 1)).take (p + 1) = l.take p ++ [b] := by
  have hlen : (l.take p).length = p := by rw [List.length_take]; omega
  rw [List.take_append_eq_append_take, hlen]
  simp [List.take_take]

theorem drop_succ_splice (l : List Nat) (p b n : Nat) (hp : p ≤ l.length) :
    (l.take p ++ b :: l.drop (p + 1)).drop (p + 1 + n) = l.drop (p + (n + 1)) := by
  have hlen : (l.take p).length = p := by rw [List.length_take]; omega
  rw [List.drop_append_eq_append_drop, hlen]
  have : p + 1 + n - p = n + 1 := by omega
  rw [this, List.drop_succ_cons, List.drop_drop, List.drop_eq_nil_of_le (by rw [hlen]; omega)]
  simp [Nat.add_assoc, Nat.add_comm 1 n]

theorem writeLittleEndian_buffer (n : Nat) (base : List Nat) (off v : Nat)
    (h : off + n ≤ base.length) :
    writeLittleEndian base off v n = base.take off ++ leBytes v n ++ base.drop (off + n) := by
  induction n generalizing base off v with
  | zero => simp [writeLittleEndian, leBytes]
  | succ n ih =>
    have hlt : off < base.length := by omega
    have e1 : v &&& 0xFF = v % 256 := Nat.and_pow_two_sub_one_eq_mod v 8
    have e2 : v >>> 8 = v / 256 := Nat.shiftRight_eq_div_pow v 8
    rw [writeLittleEndian, e1, e2, ih _ _ _ (by rw [List.length_set]; omega),
      List.set_eq_take_append_cons_drop, if_pos hlt, take_succ_splice _ _ _ hlt.le,
      drop_succ_splice _ _ _ _ hlt.le]
    simp only [leBytes, List.append_assoc, List.singleton_append]

theorem File.writeLittleEndian_at_end (n : Nat) (f : File) (v : Nat) (h : f.isOpen = true)
    (hp : f.pos = f.bytes.length) :
    f.writeLittleEndian v n = ⟨f.bytes ++ leBytes v n, f.pos + n, true⟩ := by
  induction n generalizing f v with
  | zero => cases f; simp_all [File.writeLittleEndian, leBytes]
  | succ n ih =>
    have e1 : v &&& 0xFF = v % 256 := Nat.and_pow_two_sub_one_eq_mod v 8
    have e2 : v >>> 8 = v / 256 := Nat.shiftRight_eq_div_pow v 8
    rw [File.writeLittleEndian, e1, e2, File.write_at_end f _ h hp,
      ih _ _ rfl (by simp only [List.length_append, List.length_singleton, hp])]
    simp only [leBytes, Nat.mod_mod, List.append_assoc, List.singleton_append, Nat.add_assoc,
      Nat.add_comm 1 n]

theorem File.write_general (f : File) (b : Nat) (h : f.isOpen = true)
    (hp : f.pos ≤ f.bytes.length) :
    f.write b = ⟨f.bytes.take f.pos ++ (b % 256) :: f.bytes.drop (f.pos + 1), f.pos + 1, true⟩ := by
  rcases Nat.lt_or_ge f.pos f.bytes.length with hlt | hge
  · exact File.write_inside f b h hlt
  · have he : f.pos = f.bytes.length := le_antisymm hp hge
    rw [File.write_at_end f b h he, he, List.take_length, List.drop_eq_nil_of_le (by omega)]

theorem File.writeLittleEndian_general (n : Nat) (f : File) (v : Nat) (h : f.isOpen = true)
    (hp : f.pos ≤ f.bytes.length) :
    f.writeLittleEndian v n =
      ⟨f.bytes.take f.pos ++ leBytes v n ++ f.bytes.drop (f.pos + n), f.pos + n, true⟩ := by
  induction n generalizing f v with
  | zero => cases f; simp_all [File.writeLittleEndian, leBytes]
  | succ n ih =>
    have e1 : v &&& 0xFF = v % 256 := Nat.and_pow_two_sub_one_eq_mod v 8
    have e2 : v >>> 8 = v / 256 := Nat.shiftRight_eq_div_pow v 8
    have hlen : (List.take f.pos f.bytes).length = f.pos := by
      rw [List.length_take]; omega
    rw [File.writeLittleEndian, e1, e2, File.write_general f _ h hp,
      ih _ _ rfl (by
        simp only [List.length_append, List.length_cons, hlen]; omega)]
    simp only [take_succ_splice _ _ _ hp, drop_succ_splice _ _ _ _ hp]
    simp only [leBytes, Nat.mod_mod, List.append_assoc, List.singleton_append, Nat.add_assoc,
      Nat.add_comm 1 n]

/-- C14: for every value `v` and size `n` (in particular an unsigned 32-bit `v`
and `n` in 1..4), the buffer overload of `writeLittleEndian` stores and the file
overload writes exactly `n` bytes, the `i`-th being `floor(v / 256^i) mod 256`;
both emit the same byte sequence, whose little-endian value is `v mod 256^n`
(`v` itself when `v < 256^n`). -/
theorem writeLittleEndian_bytes (v n : Nat) (base : List Nat) (off : Nat)
    (hb : off + n ≤ base.length) (f : File) (hf : f.isOpen = true)
    (hpos : f.pos ≤ f.bytes.length) :
    writeLittleEndian base off v n = base.take off ++ leBytes v n ++ base.drop (off + n)
    ∧ ((writeLittleEndian base off v n).drop off).take n = leBytes v n
    ∧ (writeLittleEndian base off v n).length = base.length
    ∧ ((f.writeLittleEndian v n).bytes.drop f.pos).take n = leBytes v n
    ∧ (f.writeLittleEndian v n).bytes.take f.pos = f.bytes.take f.pos
    ∧ (f.writeLittleEndian v n).pos = f.pos + n
    ∧ (f.pos = f.bytes.length → (f.writeLittleEndian v n).bytes = f.bytes ++ leBytes v n)
    ∧ ((writeLittleEndian base off v n).drop off).take n
        = ((f.writeLittleEndian v n).bytes.drop f.pos).take n
    ∧ (leBytes v n).length = n
    ∧ (∀ i, i < n → (leBytes v n)[i]? = some (v / 256 ^ i % 256))
    ∧ decodeLE (leBytes v n) = v % 256 ^ n
    ∧ (v < 256 ^ n → decodeLE (leBytes v n) = v) := by
  have hB := writeLittleEndian_buffer n base off v hb
  have hF := File.writeLittleEndian_general n f v hf hpos
  have hlo : (base.take off).length = off := by rw [List.length_take]; omega
  have hlf : (f.bytes.take f.pos).length = f.pos := by rw [List.length_take]; omega
  have hBs : ((writeLittleEndian base off v n).drop off).take n = leBytes v n := by
    rw [hB, List.append_assoc, List.drop_left' hlo, List.take_left' (leBytes_length v n)]
  have hFs : ((f.writeLittleEndian v n).bytes.drop f.pos).take n = leBytes v n := by
    rw [hF]
    simp only []
    rw [List.append_assoc, List.drop_left' hlf, List.take_left' (leBytes_length v n)]
  refine ⟨hB, hBs, ?_, hFs, ?_, ?_, fun he => ?_, by rw [hBs, hFs], leBytes_length v n,
    fun i hi => ?_, decodeLE_leBytes v n, fun hv => ?_⟩
  · rw [hB]
    simp only [List.length_append, leBytes_length, List.length_drop, hlo]
    omega
  · rw [hF]
    simp only []
    rw [List.append_assoc, List.take_left' hlf]
  · rw [hF]
  · rw [File.writeLittleEndian_at_end n f v hf he]
  · rw [leBytes_get, if_pos hi]
  · rw [decodeLE_leBytes, Nat.mod_eq_of_lt hv]

/-- Witness of `writeLittleEndian_bytes`: the sample rate 44100 written in 4
bytes, at offset 2 of an 8-byte buffer and at the end of a new file. -/
theorem writeLittleEndian_bytes_witness :
    2 + 4 ≤ (List.replicate 8 0).length
    ∧ (sdOpen [] true).isOpen = true
    ∧ (sdOpen [] true).pos ≤ (sdOpen [] true).bytes.length
    ∧ writeLittleEndian (List.replicate 8 0) 2 44100 4 = [0, 0, 68, 172, 0, 0, 0, 0]
    ∧ ((sdOpen [] true).writeLittleEndian 44100 4).bytes = [68, 172, 0, 0]
    ∧ decodeLE (leBytes 44100 4) = 44100 :=
  ⟨by decide, rfl, by decide,
    (writeLittleEndian_bytes 44100 4 (List.replicate 8 0) 2 (by decide) (sdOpen [] true) rfl
      (by decide)).1,
    (writeLittleEndian_bytes 44100 4 (List.replicate 8 0) 2 (by decide) (sdOpen [] true) rfl
      (by decide)).2.2.2.2.2.2.1 rfl,
    (writeLittleEndian_bytes 44100 4 (List.replicate 8 0) 2 (by decide) (sdOpen [] true) rfl
      (by decide)).2.2.2.2.2.2.2.2.2.2.2 (by decide)⟩

/-! ## Lemmas and theorem about the frame of `updateWAVHeader` -/

theorem File.write_closed (f : File) (b : Nat) (h : f.isOpen = false) : f.write b = f := by
  obtain ⟨B, p, o⟩ := f
  subst h
  rfl

theorem File.writeLittleEndian_closed (n : Nat) (f : File) (v : Nat) (h : f.isOpen = false) :
    f.writeLittleEndian v n = f := by
  induction n generalizing v with
  | zero => rfl
  | succ n ih => rw [File.writeLittleEndian, File.write_closed f _ h, ih]

theorem File.seek_closed (f : File) (p : Nat) (h : f.isOpen = false) : f.seek p = f := by
  simp [File.seek, h]

theorem updateWAVHeader_closed (f : File) (h : f.isOpen = false) : updateWAVHeader f = f := by
  unfold updateWAVHeader
  simp only [File.seek_closed f _ h, File.writeLittleEndian_closed _ f _ h]

theorem segments_of_splice (A B1 C B2 D : List Nat) (hA : A.length = 4) (hB1 : B1.length = 4)
    (hC : C.length = 32) (hB2 : B2.length = 4) :
    (A ++ B1 ++ C ++ B2 ++ D).take 4 = A
    ∧ ((A ++ B1 ++ C ++ B2 ++ D).drop 8).take 32 = C
    ∧ (A ++ B1 ++ C ++ B2 ++ D).drop 44 = D := by
  refine ⟨?_, ?_, ?_⟩
  · simp only [List.append_assoc]
    exact List.take_left' hA
  · have h8 : (A ++ B1).length = 8 := by rw [List.length_append, hA, hB1]
    have e : A ++ B1 ++ C ++ B2 ++ D = (A ++ B1) ++ (C ++ (B2 ++ D)) := by
      simp only [List.append_assoc]
    rw [e, List.drop_left' h8, List.take_left' hC]
  · have h44 : (A ++ B1 ++ C ++ B2).length = 44 := by
      simp only [List.length_append, hA, hB1, hC, hB2]
    exact List.drop_left' h44

theorem updateWAVHeader_segments (f : File) (hl : 44 ≤ f.bytes.length) :
    (updateWAVHeader f).bytes.take 4 = f.bytes.take 4
    ∧ ((updateWAVHeader f).bytes.drop 8).take 32 = (f.bytes.drop 8).take 32
    ∧ (updateWAVHeader f).bytes.drop 44 = f.bytes.drop 44
    ∧ (updateWAVHeader f).bytes.length = f.bytes.length := by
  cases ho : f.isOpen
  · rw [updateWAVHeader_closed f ho]
    exact ⟨rfl, rfl, rfl, rfl⟩
  · have l4 : (List.take 4 f.bytes).length = 4 := by rw [List.length_take]; omega
    have l32 : (List.take 32 (f.bytes.drop 8)).length = 32 := by
      rw [List.length_take, List.length_drop]; omega
    obtain ⟨h1, h2, h3⟩ := segments_of_splice (f.bytes.take 4)
      (leBytes ((f.bytes.length - 8) % 4294967296) 4) ((f.bytes.drop 8).take 32)
      (leBytes ((f.bytes.length - 44) % 4294967296) 4) (f.bytes.drop 44)
      l4 (leBytes_length _ _) l32 (leBytes_length _ _)
    have hlen := (updateWAVHeader_fields f ho hl).2.2
    rw [updateWAVHeader_bytes f ho hl] at hlen ⊢
    exact ⟨h1, h2, h3, hlen⟩

theorem updateWAVHeader_idem (f : File) (hl : 44 ≤ f.bytes.length) :
    updateWAVHeader (updateWAVHeader f) = updateWAVHeader f := by
  cases ho : f.isOpen
  · rw [updateWAVHeader_closed f ho, updateWAVHeader_closed f ho]
  · obtain ⟨h1, h2, h3, h4⟩ := updateWAVHeader_segments f hl
    have hopen : (updateWAVHeader f).isOpen = true := by
      rw [updateWAVHeader_bytes f ho hl]
    rw [updateWAVHeader_bytes (updateWAVHeader f) hopen (by rw [h4]; exact hl), h1, h2, h3, h4,
      ← updateWAVHeader_bytes f ho hl]

theorem getElem?_of_segments (l m : List Nat) (h4 : m.take 4 = l.take 4)
    (h8 : (m.drop 8).take 32 = (l.drop 8).take 32) (h44 : m.drop 44 = l.drop 44)
    (i : Nat) (hi : i < 4 ∨ (8 ≤ i ∧ i < 40) ∨ 44 ≤ i) : m[i]? = l[i]? := by
  rcases hi with hi | ⟨hi1, hi2⟩ | hi
  · rw [← List.getElem?_take_of_lt hi, h4, List.getElem?_take_of_lt hi]
  · have e : i = 8 + (i - 8) := by omega
    have hlt : i - 8 < 32 := by omega
    rw [e, ← List.getElem?_drop m, ← List.getElem?_drop l, ← List.getElem?_take_of_lt hlt, h8,
      List.getElem?_take_of_lt hlt]
  · have e : i = 44 + (i - 44) := by omega
    rw [e, ← List.getElem?_drop m, ← List.getElem?_drop l, h44]

/-- C15: for every file of length at least 44, `updateWAVHeader()` leaves the
length of the file unchanged and changes no byte outside the offsets 4..7 and
40..43 (the other header fields and the whole payload stay as they were), and
calling it twice gives the same file as calling it once. -/
theorem updateWAVHeader_frame_idempotent (f : File) (hl : 44 ≤ f.bytes.length) :
    (updateWAVHeader f).bytes.length = f.bytes.length
    ∧ (∀ i, (i < 4 ∨ (8 ≤ i ∧ i < 40) ∨ 44 ≤ i) → (updateWAVHeader f).bytes[i]? = f.bytes[i]?)
    ∧ (updateWAVHeader f).bytes.take 4 = f.bytes.take 4
    ∧ ((updateWAVHeader f).bytes.drop 8).take 32 = (f.bytes.drop 8).take 32
    ∧ (updateWAVHeader f).bytes.drop 44 = f.bytes.drop 44
    ∧ (updateWAVHeader f).isOpen = f.isOpen
    ∧ updateWAVHeader (updateWAVHeader f) = updateWAVHeader f := by
  obtain ⟨h1, h2, h3, h4⟩ := updateWAVHeader_segments f hl
  refine ⟨h4, fun i hi => getElem?_of_segments _ _ h1 h2 h3 i hi, h1, h2, h3, ?_,
    updateWAVHeader_idem f hl⟩
  cases ho : f.isOpen
  · rw [updateWAVHeader_closed f ho, ho]
  · rw [updateWAVHeader_bytes f ho hl]

/-- Witness of `updateWAVHeader_frame_idempotent`: the header followed by three
payload bytes, not yet finalized. -/
theorem updateWAVHeader_frame_idempotent_witness :
    44 ≤ (File.mk (canonicalHeader ++ [1, 2, 3]) 47 true).bytes.length
    ∧ (updateWAVHeader ⟨canonicalHeader ++ [1, 2, 3], 47, true⟩).bytes.length = 47
    ∧ (updateWAVHeader ⟨canonicalHeader ++ [1, 2, 3], 47, true⟩).bytes.drop 44 = [1, 2, 3]
    ∧ updateWAVHeader (updateWAVHeader ⟨canonicalHeader ++ [1, 2, 3], 47, true⟩)
        = updateWAVHeader ⟨canonicalHeader ++ [1, 2, 3], 47, true⟩ :=
  ⟨by decide,
    (updateWAVHeader_frame_idempotent ⟨canonicalHeader ++ [1, 2, 3], 47, true⟩ (by decide)).1,
    (updateWAVHeader_frame_idempotent ⟨canonicalHeader ++ [1, 2, 3], 47, true⟩
      (by decide)).2.2.2.2.1,
    (updateWAVHeader_frame_idempotent ⟨canonicalHeader ++ [1, 2, 3], 47, true⟩
      (by decide)).2.2.2.2.2.2⟩

/-! ## Theorems about protocol misuse -/

theorem stopRecording_isOpen (s : State) : (stopRecording s).audioFile.isOpen = false := by
  cases ho : s.audioFile.isOpen
  · rw [stopRecording_closed s ho]; exact ho
  · rw [stopRecording_open s ho]; rfl

theorem stopRecording_twice (s : State) : stopRecording (stopRecording s) = stopRecording s := by
  rw [stopRecording_closed _ (stopRecording_isOpen s)]
  cases ho : s.audioFile.isOpen
  · rw [stopRecording_closed s ho]
  · rw [stopRecording_open s ho]

set_option maxRecDepth 10000 in
theorem roundTrip_three :
    roundTrip [[1, 2, 3]] =
      ⟨[82, 73, 70, 70, 39, 0, 0, 0, 87, 65, 86, 69, 102, 109, 116, 32,
        16, 0, 0, 0, 1, 0, 1, 0, 68, 172, 0, 0, 136, 88, 1, 0,
        2, 0, 16, 0, 100, 97, 116, 97, 3, 0, 0, 0, 1, 2, 3], 44, true⟩ := by
  decide

/-- C11 as stated fails: on the file finalized by `updateWAVHeader()` (three
payload bytes, still open) a second `updateWAVHeader()` succeeds, returning the
same finalized file, and a write after it is carried out, at offset 44 (the
payload 1, 2, 3 becomes 7, 2, 3); nothing reports a misuse. -/
theorem finalize_twice_accepted :
    (roundTrip [[1, 2, 3]]).isOpen = true
    ∧ updateWAVHeader (roundTrip [[1, 2, 3]]) = roundTrip [[1, 2, 3]]
    ∧ fieldAt (updateWAVHeader (roundTrip [[1, 2, 3]])).bytes 40 4 = 3
    ∧ (roundTrip [[1, 2, 3]]).bytes.drop 44 = [1, 2, 3]
    ∧ ((roundTrip [[1, 2, 3]]).writeBuf [7] 1).bytes.drop 44 = [7, 2, 3] := by
  rw [roundTrip_three]
  refine ⟨rfl, by decide, by decide, by decide, by decide⟩

/-- C11 (amended): the writer keeps no protocol state and reports no misuse.  On
an open file holding a header, a second `updateWAVHeader()` gives the same file
as the first, still open and positioned at offset 44, and a write after it is
carried out there.  Once `stopRecording()` has closed the file, a further
`updateWAVHeader()` or write changes nothing, and a second `stopRecording()`
does not finalize again: it leaves the state as it is and prints
"No file to close. Recording failed.". -/
theorem finalize_without_protocol_state (f : File) (hf : f.isOpen = true)
    (hl : 44 ≤ f.bytes.length) (b : Nat) (s : State) (buf : List Nat) (n : Nat) :
    updateWAVHeader (updateWAVHeader f) = updateWAVHeader f
    ∧ (updateWAVHeader f).isOpen = true
    ∧ (updateWAVHeader f).pos = 44
    ∧ ((updateWAVHeader f).write b).bytes[44]? = some (b % 256)
    ∧ ((updateWAVHeader f).write b).pos = 45
    ∧ (stopRecording s).audioFile.isOpen = false
    ∧ updateWAVHeader (stopRecording s).audioFile = (stopRecording s).audioFile
    ∧ (stopRecording s).audioFile.writeBuf buf n = (stopRecording s).audioFile
    ∧ stopRecording (stopRecording s) = stopRecording s
    ∧ stopRecordingMessage (stopRecording s) = "No file to close. Recording failed." := by
  have hU := updateWAVHeader_bytes f hf hl
  have hlen := (updateWAVHeader_segments f hl).2.2.2
  have hopen : (updateWAVHeader f).isOpen = true := by rw [hU]
  have hpos : (updateWAVHeader f).pos = 44 := by rw [hU]
  have hc := stopRecording_isOpen s
  refine ⟨updateWAVHeader_idem f hl, hopen, hpos, ?_, ?_, hc, updateWAVHeader_closed _ hc,
    File.writeBuf_closed _ _ _ hc, stopRecording_twice s, ?_⟩
  · rw [File.write_general _ b hopen (by rw [hpos, hlen]; exact hl), hpos]
    have h44 : (List.take 44 (updateWAVHeader f).bytes).length = 44 := by
      rw [List.length_take, hlen]; omega
    simp only []
    rw [List.getElem?_append_right (by rw [h44]), h44, Nat.sub_self, List.getElem?_cons_zero]
  · rw [(File.write_open _ b hopen).2, hpos]
  · simp [stopRecordingMessage, File.toBool, hc]

/-- Witness of `finalize_without_protocol_state`: the header with three payload
bytes, and the state right after `setup()`. -/
theorem finalize_without_protocol_state_witness :
    (File.mk (canonicalHeader ++ [1, 2, 3]) 47 true).isOpen = true
    ∧ 44 ≤ (File.mk (canonicalHeader ++ [1, 2, 3]) 47 true).bytes.length
    ∧ updateWAVHeader (updateWAVHeader ⟨canonicalHeader ++ [1, 2, 3], 47, true⟩)
        = updateWAVHeader ⟨canonicalHeader ++ [1, 2, 3], 47, true⟩
    ∧ stopRecording (stopRecording startState) = stopRecording startState :=
  ⟨rfl, by decide,
    (finalize_without_protocol_state ⟨canonicalHeader ++ [1, 2, 3], 47, true⟩ rfl (by decide)
      0 startState [] 0).1,
    (finalize_without_protocol_state ⟨canonicalHeader ++ [1, 2, 3], 47, true⟩ rfl (by decide)
      0 startState [] 0).2.2.2.2.2.2.2.2.1⟩

/-! ## Theorems about the order of the blocks -/

theorem recordBlock_payload (s : State) (hs : s.audioFile.Streaming) (data : PCMFrame) :
    (recordBlock s (some data)).audioFile.bytes
      = s.audioFile.bytes ++ (if s.voiceActive = true then data.bytes else []) := by
  cases hv : s.voiceActive
  · rw [recordBlock_unvoiced s data hv]
    simp
  · rw [recordBlock_voiced s data hs hv]
    simp

/-- The file at the end of a `loop()` iteration that found a PCM frame: the frame
has been appended according to `voiceActive` as it was when the iteration began. -/
theorem loop_frame_gate (s : State) (hs : s.audioFile.Streaming) (i : LoopInput)
    (data : PCMFrame) (hpcm : i.pcm = some data) :
    (loop s i).state.audioFile.bytes.drop 44
      = s.audioFile.bytes.drop 44 ++ (if s.voiceActive = true then data.bytes else [])
    ∧ (loop s i).state.audioFile.bytes.length
      = s.audioFile.bytes.length + (if s.voiceActive = true then 256 else 0) := by
  have hrs := recordBlock_streaming s i.pcm hs
  have hrb : (recordBlock s i.pcm).audioFile.bytes
      = s.audioFile.bytes ++ (if s.voiceActive = true then data.bytes else []) := by
    rw [hpcm]; exact recordBlock_payload s hs data
  have hd : (s.audioFile.bytes ++ (if s.voiceActive = true then data.bytes else [])).drop 44
      = s.audioFile.bytes.drop 44 ++ (if s.voiceActive = true then data.bytes else []) :=
    List.drop_append_of_le_length hs.2.2
  have hl : (s.audioFile.bytes ++ (if s.voiceActive = true then data.bytes else [])).length
      = s.audioFile.bytes.length + (if s.voiceActive = true then 256 else 0) := by
    rw [List.length_append]
    split
    · rw [data.size_eq]
    · rfl
  rw [loop_audioFile]
  split
  · rw [stopRecording_open _ hrs.1]
    obtain ⟨_, _, h3, h4⟩ := updateWAVHeader_segments _ hrs.2.2
    simp only [File.close_bytes]
    rw [h3, h4, hrb]
    exact ⟨hd, hl⟩
  · rw [hrb]
    exact ⟨hd, hl⟩

/-- C12 as stated fails, in both directions: right after `setup()`
(`voiceActive` false) an iteration with a frame and the voiced peak 0.1 writes
nothing, and the next iteration, with a frame and the unvoiced peak 0.01, writes
its frame. -/
theorem frame_gate_lags :
    (0.05 : ℚ) < 0.1
    ∧ (loop startState ⟨some zeroFrame, some 0.1, none, 5⟩).state.audioFile.bytes.drop 44 = []
    ∧ (loop startState ⟨some zeroFrame, some 0.1, none, 5⟩).isHalted = false
    ∧ (0.01 : ℚ) ≤ 0.05
    ∧ (loop (loop startState ⟨some zeroFrame, some 0.1, none, 5⟩).state
        ⟨some zeroFrame, some 0.01, none, 6⟩).state.audioFile.bytes.drop 44
        = zeroFrame.bytes := by
  have hs0 : startState.audioFile.Streaming := reachable_streaming _ ⟨true, [], true, 0, [], rfl⟩
  have hb0 : startState.audioFile.bytes = canonicalHeader := by
    show (setup true [] true 0).state.audioFile.bytes = canonicalHeader
    rw [setup_ok]
    show (writeWAVHeader (sdOpen [] true)).bytes = canonicalHeader
    rw [writeWAVHeader_new]
  have hh : (loop startState ⟨some zeroFrame, some 0.1, none, 5⟩).isHalted = false := by
    rw [loop_isHalted]; decide
  have hv0 : startState.voiceActive = false := rfl
  have h1 := (loop_frame_gate startState hs0 ⟨some zeroFrame, some 0.1, none, 5⟩ zeroFrame rfl).1
  rw [hv0, hb0] at h1
  have hrun : loop startState ⟨some zeroFrame, some 0.1, none, 5⟩
      = .running (loop startState ⟨some zeroFrame, some 0.1, none, 5⟩).state := by
    cases hc : loop startState ⟨some zeroFrame, some 0.1, none, 5⟩ with
    | running t => rfl
    | halted t => rw [hc] at hh; cases hh
  have hs1 := loop_streaming startState _ _ hs0 hrun
  have hv1 : (loop startState ⟨some zeroFrame, some 0.1, none, 5⟩).state.voiceActive = true := by
    rw [loop_voiceActive]
    show (gainBlock _ (some 0.1)).voiceActive = true
    rw [gainBlock_voiced _ _ (by norm_num)]
  have h2 := (loop_frame_gate _ hs1 ⟨some zeroFrame, some 0.01, none, 6⟩ zeroFrame rfl).1
  rw [hv1, h1] at h2
  refine ⟨by norm_num, ?_, hh, by norm_num, ?_⟩
  · rw [h1]; rfl
  · rw [h2]; rfl

/-- C12 (amended): in every `loop()` iteration in which both a peak value and a
PCM frame are available, the frame is handled before that iteration's peak is
read: it is appended iff `voiceActive` was true when the iteration began (the
decision of the most recent earlier peak, false after `setup()`), whatever that
iteration's peak is.  That iteration's peak sets `voiceActive` afterwards, and so
decides about the frame of the next iteration: the next frame is appended iff
this peak is above 0.05. -/
theorem frame_gated_by_earlier_decision (s : State) (h : Reachable s) (i j : LoopInput)
    (data next : PCMFrame) (p : ℚ) :
    (loop s { i with pcm := some data, peak := some p }).state.audioFile.bytes.drop 44
      = s.audioFile.bytes.drop 44 ++ (if s.voiceActive = true then data.bytes else [])
    ∧ (loop s { i with pcm := some data, peak := some p }).state.audioFile.bytes.length
      = s.audioFile.bytes.length + (if s.voiceActive = true then 256 else 0)
    ∧ (loop s { i with pcm := some data, peak := some p }).state.voiceActive = decide (0.05 < p)
    ∧ ((loop s { i with pcm := some data, peak := some p }).isHalted = false →
        (loop (loop s { i with pcm := some data, peak := some p }).state
            { j with pcm := some next }).state.audioFile.bytes.drop 44
          = (loop s { i with pcm := some data, peak := some p }).state.audioFile.bytes.drop 44
            ++ (if 0.05 < p then next.bytes else [])) := by
  have hs := reachable_streaming s h
  obtain ⟨h1, h2⟩ := loop_frame_gate s hs { i with pcm := some data, peak := some p } data rfl
  have hv : (loop s { i with pcm := some data, peak := some p }).state.voiceActive
      = decide (0.05 < p) := by
    rw [loop_voiceActive]
    show (gainBlock _ (some p)).voiceActive = _
    by_cases hp : 0.05 < p
    · simp [gainBlock_voiced _ p hp, hp]
    · simp [gainBlock_unvoiced _ p (not_lt.mp hp), hp]
  refine ⟨h1, h2, hv, fun hh => ?_⟩
  have hrun : loop s { i with pcm := some data, peak := some p }
      = .running (loop s { i with pcm := some data, peak := some p }).state := by
    cases hc : loop s { i with pcm := some data, peak := some p } with
    | running t => rfl
    | halted t => rw [hc] at hh; cases hh
  have hs1 := loop_streaming s _ _ hs hrun
  have h3 := (loop_frame_gate _ hs1 { j with pcm := some next } next rfl).1
  rw [h3, hv]
  simp only [decide_eq_true_eq]

/-- Witness of `frame_gated_by_earlier_decision`: right after `setup()`, a frame
with the voiced peak 0.1 is not written, and the frame of the next iteration is. -/
theorem frame_gated_by_earlier_decision_witness :
    Reachable startState
    ∧ (loop startState ⟨some zeroFrame, some 0.1, none, 5⟩).isHalted = false
    ∧ (loop startState ⟨some zeroFrame, some 0.1, none, 5⟩).state.audioFile.bytes.length
        = startState.audioFile.bytes.length + (if startState.voiceActive = true then 256 else 0)
    ∧ (loop (loop startState ⟨some zeroFrame, some 0.1, none, 5⟩).state
          ⟨some zeroFrame, none, none, 6⟩).state.audioFile.bytes.drop 44
        = (loop startState ⟨some zeroFrame, some 0.1, none, 5⟩).state.audioFile.bytes.drop 44
          ++ (if (0.05 : ℚ) < 0.1 then zeroFrame.bytes else []) :=
  have hr : Reachable startState := ⟨true, [], true, 0, [], rfl⟩
  have hh : (loop startState ⟨some zeroFrame, some 0.1, none, 5⟩).isHalted = false := by
    rw [loop_isHalted]; decide
  ⟨hr, hh,
    (frame_gated_by_earlier_decision startState hr ⟨none, none, none, 5⟩
      ⟨none, none, none, 6⟩ zeroFrame zeroFrame 0.1).2.1,
    (frame_gated_by_earlier_decision startState hr ⟨none, none, none, 5⟩
      ⟨none, none, none, 6⟩ zeroFrame zeroFrame 0.1).2.2.2 hh⟩

end AudioRec
